import Mathlib

/-!
Shallow embedding of the MekBay unit search/filter service
(`src/app/services/unit-search-filters.service.ts`) and proofs about it.

Strings are Lean `String`s; the parsing primitives work on `List Char`
(`String.data`).  JavaScript numbers are modelled as `Int` (all values the
service manipulates in the claims are integers).  JavaScript `Set`/`Map`
objects used purely through `has`/`add`/`get` are modelled as lists with
membership/association-list lookup, which preserves the membership and
lookup semantics the code relies on.
-/

namespace Mekbay

/-! ### JavaScript string primitives -/

/-- Model of `String.prototype.split` with a single-character separator:
splits into the (possibly empty) chunks between separator occurrences.
`"".split(sep)` yields `[""]`. -/
def jsSplit (sep : Char) : List Char → List (List Char)
  | [] => [[]]
  | c :: rest =>
    match jsSplit sep rest with
    | [] => [[]]
    | l :: ls => if c == sep then [] :: l :: ls else (c :: l) :: ls

/-- Model of `String.prototype.indexOf` for a single character: index of the
first occurrence, `none` for `-1`. -/
def charIndexOf (cs : List Char) (c : Char) : Option Nat :=
  cs.findIdx? (· == c)

/-- Digits of a decimal literal to a natural number. -/
def digitsToNat (ds : List Char) : Nat :=
  ds.foldl (fun acc c => acc * 10 + (c.toNat - '0'.toNat)) 0

/-- Model of `parseFloat` restricted to the integral values this service
produces and consumes: optional sign followed by at least one digit; any
trailing characters (including a fractional part) are ignored, `none` models
`NaN`.  (Exponents, `Infinity`, leading whitespace and fractional digits are
not modelled; the compact codec only writes optionally-signed integers.) -/
def jsParseNumber (cs : List Char) : Option Int :=
  let (sign, rest) :=
    match cs with
    | '-' :: r => ((-1 : Int), r)
    | '+' :: r => ((1 : Int), r)
    | r => ((1 : Int), r)
  let digits := rest.takeWhile Char.isDigit
  if digits.isEmpty then none else some (sign * digitsToNat digits)

/-- The characters `encodeURIComponent` leaves unescaped:
`A–Z a–z 0–9 - _ . ! ~ * ' ( )`. -/
def isUnreservedURIChar (c : Char) : Bool :=
  c.isAlphanum || c == '-' || c == '_' || c == '.' || c == '!' ||
    c == '~' || c == '*' || c == '\'' || c == '(' || c == ')'

/-- UTF-8 bytes of one character (as natural numbers < 256). -/
def utf8Bytes (c : Char) : List Nat :=
  let n := c.toNat
  if n < 0x80 then [n]
  else if n < 0x800 then
    [0xC0 ||| (n >>> 6), 0x80 ||| (n &&& 0x3F)]
  else if n < 0x10000 then
    [0xE0 ||| (n >>> 12), 0x80 ||| ((n >>> 6) &&& 0x3F), 0x80 ||| (n &&& 0x3F)]
  else
    [0xF0 ||| (n >>> 18), 0x80 ||| ((n >>> 12) &&& 0x3F),
      0x80 ||| ((n >>> 6) &&& 0x3F), 0x80 ||| (n &&& 0x3F)]

/-- Hexadecimal digit of a value < 16, upper case as produced by
`encodeURIComponent`. -/
def hexDigitChar (n : Nat) : Char :=
  if n < 10 then Char.ofNat ('0'.toNat + n) else Char.ofNat ('A'.toNat + n - 10)

/-- Value of a hexadecimal digit (`decodeURIComponent` accepts both cases). -/
def hexDigitVal (c : Char) : Option Nat :=
  if '0' ≤ c && c ≤ '9' then some (c.toNat - '0'.toNat)
  else if 'A' ≤ c && c ≤ 'F' then some (c.toNat - 'A'.toNat + 10)
  else if 'a' ≤ c && c ≤ 'f' then some (c.toNat - 'a'.toNat + 10)
  else none

/-- Model of `encodeURIComponent`: unreserved characters are copied,
everything else is percent-encoded byte-wise as UTF-8. -/
def encodeURIComponent (s : String) : String :=
  String.mk <| s.data.foldr
    (fun c acc =>
      if isUnreservedURIChar c then c :: acc
      else (utf8Bytes c).foldr
        (fun b acc2 => '%' :: hexDigitChar (b / 16) :: hexDigitChar (b % 16) :: acc2)
        acc)
    []

/-- First phase of `decodeURIComponent`: turn the percent string into a byte
sequence; a `%` that is not followed by two hexadecimal digits is a malformed
URI (`none` models the thrown `URIError`). -/
def percentDecodeBytes : List Char → Option (List Nat)
  | [] => some []
  | '%' :: h :: l :: rest =>
    match hexDigitVal h, hexDigitVal l with
    | some hv, some lv => (percentDecodeBytes rest).map ((hv * 16 + lv) :: ·)
    | _, _ => none
  | '%' :: _ => none
  | c :: rest => (percentDecodeBytes rest).map (utf8Bytes c ++ ·)

/-- Second phase of `decodeURIComponent`: strict UTF-8 decoding of the byte
sequence (continuation bytes, overlong encodings, surrogates and
out-of-range code points are malformed, as in JavaScript). -/
def utf8DecodeBytes : List Nat → Option (List Char)
  | [] => some []
  | b :: rest =>
    if b < 0x80 then (utf8DecodeBytes rest).map (Char.ofNat b :: ·)
    else if b < 0xC2 then none
    else if b < 0xE0 then
      match rest with
      | c1 :: rest1 =>
        if 0x80 ≤ c1 && c1 < 0xC0 then
          (utf8DecodeBytes rest1).map (Char.ofNat (((b - 0xC0) <<< 6) + (c1 - 0x80)) :: ·)
        else none
      | _ => none
    else if b < 0xF0 then
      match rest with
      | c1 :: c2 :: rest2 =>
        if 0x80 ≤ c1 && c1 < 0xC0 && 0x80 ≤ c2 && c2 < 0xC0 then
          let n := ((b - 0xE0) <<< 12) + ((c1 - 0x80) <<< 6) + (c2 - 0x80)
          if n < 0x800 || (0xD800 ≤ n && n < 0xE000) then none
          else (utf8DecodeBytes rest2).map (Char.ofNat n :: ·)
        else none
      | _ => none
    else if b < 0xF5 then
      match rest with
      | c1 :: c2 :: c3 :: rest3 =>
        if 0x80 ≤ c1 && c1 < 0xC0 && 0x80 ≤ c2 && c2 < 0xC0 && 0x80 ≤ c3 && c3 < 0xC0 then
          let n := ((b - 0xF0) <<< 18) + ((c1 - 0x80) <<< 12) + ((c2 - 0x80) <<< 6) + (c3 - 0x80)
          if n < 0x10000 || 0x110000 ≤ n then none
          else (utf8DecodeBytes rest3).map (Char.ofNat n :: ·)
        else none
      | _ => none
    else none

/-- Model of `decodeURIComponent` on character lists; `none` models the
thrown `URIError` on a malformed URI component. -/
def decodeURIComponentChars (cs : List Char) : Option (List Char) :=
  (percentDecodeBytes cs).bind utf8DecodeBytes

/-- Model of `decodeURIComponent` on strings. -/
def decodeURIComponent (s : String) : Option String :=
  (decodeURIComponentChars s.data).map String.mk

/-! ### Data model

The `Unit` record type lives in `models/units.model.ts`, which is not part
of the sources; the fields below are the ones the service reads, modelled
from the spec's Record description (stable numeric id, numeric `bv`, a
component list with name and quantity, normalized chassis/model text fields,
and arbitrary further fields reached as `(unit as any)[key]`).  Field values
are JavaScript values, modelled by `JSVal`; `undefined` is merged into
`null` (the service only distinguishes them via `!= null`, which rejects
both). -/

inductive JSVal where
  | null : JSVal
  | num : Int → JSVal
  | str : String → JSVal
  /-- The only array-valued record fields the service filters on are string
  lists (quirks, tags), so array elements are typed as strings. -/
  | arr : List String → JSVal
deriving DecidableEq

structure Comp where
  n : String
  q : Int
deriving DecidableEq

structure Unit where
  id : Int
  bv : Int
  comp : List Comp
  chassisNorm : Option String
  modelNorm : Option String
  /-- The remaining record fields, as an association list (a JS object). -/
  fields : List (String × JSVal)
deriving DecidableEq

/-- `(unit as any)[key]`: property access on the field object; a missing
property (`undefined`) is modelled as `null`. -/
def fieldOf (u : Unit) (key : String) : JSVal :=
  (u.fields.lookup key).getD JSVal.null

/-- Tri-state of one dropdown option.  The `MultiState` union type is
declared in the multi-select dropdown component (not among the sources); its
four values `'or' | 'and' | 'not' | 'off'` are taken from their uses in the
service. -/
inductive MState where
  | or : MState
  | and : MState
  | not : MState
  | off : MState
deriving DecidableEq

structure MSelVal where
  state : MState
  count : Int
deriving DecidableEq

/-- A `MultiStateSelection` object: option name to `{state, count}`, as an
association list in insertion order (JS objects with string keys preserve
insertion order and have unique keys). -/
abbrev MultiStateSelection := List (String × MSelVal)

/-- Value of one filter, by filter kind (the source stores `any`; the three
shapes below are the ones the service ever writes). -/
inductive FilterVal where
  | strs : List String → FilterVal
  | multi : MultiStateSelection → FilterVal
  | range : Int × Int → FilterVal
deriving DecidableEq

structure FilterEntry where
  value : FilterVal
  interactedWith : Bool
deriving DecidableEq

/-- The `FilterState` object: filter key to entry, as an association list in
insertion order with unique keys. -/
abbrev FilterState := List (String × FilterEntry)

/-- JS object property write `obj[key] = v`: replaces the entry in place if
the key is present (JS object keys are unique; replacing every occurrence
coincides on such states), appends otherwise. -/
def jsObjSet (st : List (String × α)) (key : String) (v : α) : List (String × α) :=
  if st.any (fun p => p.1 == key) then
    st.map (fun p => if p.1 == key then (key, v) else p)
  else st ++ [(key, v)]

/-- JS `delete obj[key]`. -/
def jsObjDelete (st : List (String × α)) (key : String) : List (String × α) :=
  st.filter (fun p => !(p.1 == key))

inductive AdvFilterType where
  | DROPDOWN : AdvFilterType
  | RANGE : AdvFilterType
deriving DecidableEq

/-- One entry of the static filter registry.  The `curve` field (a UI slider
shape parameter, sometimes fractional) is never read by any embedded
operation and is omitted. -/
structure AdvFilterConfig where
  key : String
  label : String
  type : AdvFilterType
  sortOptions : List String := []
  external : Bool := false
  ignoreValues : List Int := []
  multistate : Bool := false
  countable : Bool := false
deriving DecidableEq

def FACTION_EXTINCT : Int := 3

/-- The declarative filter table `ADVANCED_FILTERS`. -/
def ADVANCED_FILTERS : List AdvFilterConfig := [
  { key := "era", label := "Era", type := .DROPDOWN, external := true },
  { key := "faction", label := "Faction", type := .DROPDOWN, external := true },
  { key := "type", label := "Type", type := .DROPDOWN },
  { key := "subtype", label := "Subtype", type := .DROPDOWN },
  { key := "techBase", label := "Tech", type := .DROPDOWN,
    sortOptions := ["Inner Sphere", "Clan", "Mixed"] },
  { key := "role", label := "Role", type := .DROPDOWN },
  { key := "weightClass", label := "Weight Class", type := .DROPDOWN,
    sortOptions := ["Ultra Light*", "Light", "Medium", "Heavy", "Assault",
      "Colossal*", "Small*", "Medium*", "Large*"] },
  { key := "level", label := "Rules", type := .DROPDOWN,
    sortOptions := ["Introductory", "Standard", "Advanced", "Experimental", "Unofficial"] },
  { key := "c3", label := "Network", type := .DROPDOWN },
  { key := "moveType", label := "Motive", type := .DROPDOWN },
  { key := "componentName", label := "Equipment", type := .DROPDOWN,
    multistate := true, countable := true },
  { key := "quirks", label := "Quirks", type := .DROPDOWN, multistate := true },
  { key := "source", label := "Source", type := .DROPDOWN },
  { key := "_tags", label := "Tags", type := .DROPDOWN, multistate := true },
  { key := "bv", label := "BV", type := .RANGE },
  { key := "tons", label := "Tons", type := .RANGE },
  { key := "armor", label := "Armor", type := .RANGE },
  { key := "internal", label := "Structure / Squad Size", type := .RANGE },
  { key := "_mdSumNoPhysical", label := "Firepower", type := .RANGE },
  { key := "dpt", label := "Damage/Turn", type := .RANGE },
  { key := "heat", label := "Total Weapons Heat", type := .RANGE, ignoreValues := [-1] },
  { key := "dissipation", label := "Dissipation", type := .RANGE, ignoreValues := [-1] },
  { key := "_maxRange", label := "Range", type := .RANGE },
  { key := "walk", label := "Walk MP", type := .RANGE },
  { key := "run", label := "Run MP", type := .RANGE },
  { key := "jump", label := "Jump MP", type := .RANGE },
  { key := "year", label := "Year", type := .RANGE },
  { key := "cost", label := "Cost", type := .RANGE }
]

/-- An era record of the external `DataService`: name, id and id-membership
set of units (a JS `Set<number>`, modelled as a list used through
`has`/iteration). -/
structure Era where
  id : Int
  name : String
  units : List Int
deriving DecidableEq

/-- A faction record of the external `DataService`: per-era id-membership
sets, keyed by era id (a JS object keyed by numeric strings, modelled as an
association list). -/
structure Faction where
  id : Int
  name : String
  eras : List (Int × List Int)
deriving DecidableEq

/-- Modelled from the spec: the external collaborators of the service — the
`DataService` lookups (`getUnits`, `getEras`, `getFactions`,
`getEraByName`, `getFactionByName`), the two pilot-skill signals, and the
external adjusted-BV formula `BVCalculatorUtil.calculateAdjustedBV`
(an opaque function of base value and the two skills). -/
structure Env where
  units : List Unit
  eras : List Era
  factions : List Faction
  gunnery : Int
  piloting : Int
  bvCalc : Int → Int → Int → Int

/-- `getAdjustedBV`: with default skills (4, 5) the raw `bv` is returned,
otherwise the external adjustment function is applied. -/
def getAdjustedBV (env : Env) (u : Unit) : Int :=
  if env.gunnery == 4 && env.piloting == 5 then u.bv
  else env.bvCalc u.bv env.gunnery env.piloting

/-! ### Natural / smart ordering -/

/-- The split performed by the regex `^([^\d]*)(\d+)?(.*)$` in
`naturalCompare`: longest non-digit prefix, then the greedy digit run (if
any), then the rest.  Returns the trimmed concatenation of the non-digit
parts and the parsed number.  (`.` matching of newline characters is not a
concern: option names are single-line.) -/
def natSplit (s : String) : String × Option Int :=
  let cs := s.data
  let p1 := cs.takeWhile (fun c => !c.isDigit)
  let rest1 := cs.dropWhile (fun c => !c.isDigit)
  let digits := rest1.takeWhile Char.isDigit
  let p3 := rest1.dropWhile Char.isDigit
  ((String.mk (p1 ++ p3)).trim, if digits.isEmpty then none else some (digitsToNat digits))

/-- `String.prototype.localeCompare`, modelled as code-point order (the sign
convention of the comparator is all the service relies on). -/
def localeCompare (a b : String) : Int :=
  match compare a b with
  | .lt => -1
  | .eq => 0
  | .gt => 1

/-- `naturalCompare`. -/
def naturalCompare (a b : String) : Int :=
  let sa := natSplit a
  let sb := natSplit b
  if sa.1 == sb.1 then
    match sa.2, sb.2 with
    | some numA, some numB => numA - numB
    | some _, none => -1
    | none, some _ => 1
    | none, none => localeCompare a b
  else localeCompare sa.1 sb.1

/-- `Array.prototype.sort(naturalCompare)`, modelled as a merge sort by the
comparator's non-positive sign. -/
def sortNatural (l : List String) : List String :=
  l.mergeSort (fun a b => naturalCompare a b ≤ 0)

/-- `new Set(options)`: deduplication keeping first occurrences in order. -/
def jsSetOfList (l : List String) : List String :=
  l.foldl (fun acc x => if acc.contains x then acc else acc ++ [x]) []

/-- One iteration of the `for (const predefinedOpt of predefinedOrder)` loop
of `smartDropdownSort`, acting on `(sortedOptions, optionsSet)`.  A wildcard
entry emits all prefix matches (natural-sorted) and deletes them from the
set — deleting every match of the prefix is written as filtering the set by
the negated prefix test. -/
def smartSortStep (acc : List String × List String) (predefinedOpt : String) :
    List String × List String :=
  if predefinedOpt.endsWith "*" then
    let pfx := predefinedOpt.dropRight 1
    let matchingOptions := sortNatural (acc.2.filter (fun o => o.startsWith pfx))
    (acc.1 ++ matchingOptions, acc.2.filter (fun o => !(o.startsWith pfx)))
  else if acc.2.contains predefinedOpt then
    (acc.1 ++ [predefinedOpt], acc.2.erase predefinedOpt)
  else acc

/-- `smartDropdownSort`.  The optional `predefinedOrder` parameter is a
list; `[]` covers both `undefined` and an empty array (the source tests
`predefinedOrder && predefinedOrder.length > 0`). -/
def smartDropdownSort (options : List String) (predefinedOrder : List String) : List String :=
  if !predefinedOrder.isEmpty then
    let start := jsSetOfList options
    let result := predefinedOrder.foldl smartSortStep ([], start)
    result.1 ++ sortNatural result.2
  else sortNatural options

/-! ### Per-record component index and tri-state set matcher -/

/-- `getUnitComponentData(unit).componentNames` (the `WeakMap` cache is a
pure memoization and is modelled by direct recomputation). -/
def componentNames (u : Unit) : List String :=
  u.comp.map (·.n)

/-- `getUnitComponentData(unit).componentCounts`: name to summed quantity. -/
def componentCounts (u : Unit) : List (String × Int) :=
  u.comp.foldl
    (fun acc c =>
      jsObjSet acc c.n (((acc.lookup c.n).getD 0) + c.q))
    []

/-- The value list the multistate matcher derives from a non-component
field: the field value as an array (`Array.isArray ? value : [value]`). -/
def unitValuesOf (u : Unit) (key : String) : List JSVal :=
  match fieldOf u key with
  | .arr l => l.map JSVal.str
  | v => [v]

/-- The name set of a record for a multistate key (`unitData.names`):
component names for the component filter, else the non-null field values. -/
def unitNames (key : String) (u : Unit) : List JSVal :=
  if key == "componentName" then (componentNames u).map JSVal.str
  else (unitValuesOf u key).filter (fun v => !(v == JSVal.null))

/-- The count map of a record for a multistate key (`unitData.counts`). -/
def unitCounts (key : String) (u : Unit) : List (JSVal × Int) :=
  if key == "componentName" then (componentCounts u).map (fun p => (JSVal.str p.1, p.2))
  else
    (unitValuesOf u key).foldl
      (fun acc v =>
        if v == JSVal.null then acc
        else
          if acc.any (fun p => p.1 == v) then
            acc.map (fun p => if p.1 == v then (v, p.2 + 1) else p)
          else acc ++ [(v, 1)])
      []

/-- `counts.get(name) || 0` with a string key. -/
def countOf (counts : List (JSVal × Int)) (name : String) : Int :=
  (counts.lookup (JSVal.str name)).getD 0

/-- Convenience predicate for the claims: the record possesses `name` for
`key` exactly when the matcher's name set contains it. -/
def unitPossesses (u : Unit) (key : String) (name : String) : Bool :=
  (unitNames key u).contains (JSVal.str name)

/-- The per-record predicate of `filterUnitsByMultiState` (the body of
`units.filter(...)`): NOT, then AND, then OR.  `counts` is materialized
exactly when quantity counting is needed, as in the source
(`needsQuantityCounting && unitData.counts` — a JS `Map` is always truthy,
so the conjunction reduces to `needsQuantityCounting`). -/
def multiStatePass (key : String) (orMap andMap : List (String × Int))
    (notSet : List String) (needsQuantityCounting : Bool) (u : Unit) : Bool :=
  let names := unitNames key u
  let counts := if needsQuantityCounting then some (unitCounts key u) else none
  -- NOT: reject if the record has any NOT-name.
  if notSet.any (fun notName => names.contains (JSVal.str notName)) then false
  else
    -- AND: must have all items (with sufficient quantity when counting).
    let andFail :=
      if !andMap.isEmpty then
        match counts with
        | some cs => andMap.any (fun p => countOf cs p.1 < p.2)
        | none => andMap.any (fun p => !(names.contains (JSVal.str p.1)))
      else false
    if andFail then false
    else
      -- OR: must have at least one (with sufficient quantity when counting).
      if !orMap.isEmpty then
        match counts with
        | some cs => orMap.any (fun p => countOf cs p.1 ≥ p.2)
        | none => orMap.any (fun p => names.contains (JSVal.str p.1))
      else true

/-- `filterUnitsByMultiState`.  (`orMap`/`andMap` are JS `Map`s built from
the partition of the selection; selection keys are unique, so the
association lists coincide with them.) -/
def filterUnitsByMultiState (units : List Unit) (key : String)
    (selection : MultiStateSelection) : List Unit :=
  let orList := (selection.filter (fun p => p.2.state == MState.or)).map
    (fun p => (p.1, p.2.count))
  let andList := (selection.filter (fun p => p.2.state == MState.and)).map
    (fun p => (p.1, p.2.count))
  let notSet := (selection.filter (fun p => p.2.state == MState.not)).map (·.1)
  if orList.isEmpty && andList.isEmpty && notSet.isEmpty then units
  else
    let needsQuantityCounting := (orList ++ andList).any (fun p => p.2 > 1)
    units.filter (multiStatePass key orList andList notSet needsQuantityCounting)

/-! ### External (id-based) filters and the filtering pipeline -/

/-- The extinct id set for one era:
`extinctFaction?.eras[era.id] as Set<number> || new Set<number>()`. -/
def extinctIdsForEra (env : Env) (eraId : Int) : List Int :=
  match env.factions.find? (fun f => f.id == FACTION_EXTINCT) with
  | some f => (f.eras.lookup eraId).getD []
  | none => []

/-- `getUnitIdsForSelectedEras`: `null` for an empty name list, else the
union over the selected eras of the era's unit ids minus the extinct ids for
that era (ids accumulated in iteration order; the JS `Set` only matters
through membership). -/
def getUnitIdsForSelectedEras (env : Env) (selectedEraNames : List String) :
    Option (List Int) :=
  if selectedEraNames.isEmpty then none
  else some <| selectedEraNames.foldl
    (fun acc eraName =>
      match env.eras.find? (fun e => e.name == eraName) with
      | some era =>
        let extinctUnitIdsForEra := extinctIdsForEra env era.id
        era.units.foldl
          (fun acc2 id => if !(extinctUnitIdsForEra.contains id) then acc2 ++ [id] else acc2)
          acc
      | none => acc)
    []

/-- The era-context test of `getUnitIdsForSelectedFactions`:
`!contextEraIds || contextEraIds.has(eraId)`. -/
def ctxAllows (contextEraIds : Option (List Int)) (eraId : Int) : Bool :=
  match contextEraIds with
  | none => true
  | some ctx => ctx.contains eraId

/-- `getUnitIdsForSelectedFactions`: `null` for an empty name list, else the
union over the selected factions of the per-era id sets whose era id passes
the optional context restriction. -/
def getUnitIdsForSelectedFactions (env : Env) (selectedFactionNames : List String)
    (contextEraIds : Option (List Int)) : Option (List Int) :=
  if selectedFactionNames.isEmpty then none
  else some <| selectedFactionNames.foldl
    (fun acc factionName =>
      match env.factions.find? (fun f => f.name == factionName) with
      | some faction =>
        faction.eras.foldl
          (fun acc2 p => if ctxAllows contextEraIds p.1 then acc2 ++ p.2 else acc2)
          acc
      | none => acc)
    []

/-- `activeFilters[key]`: the value of a touched entry of the state.  The
source builds the object by spreading the touched entries in order, so a
later duplicate key would win; state keys are unique (a JS object), making
this the unique touched entry for the key. -/
def activeValue (state : FilterState) (key : String) : Option FilterVal :=
  ((state.filter (fun p => p.2.interactedWith)).reverse.find? (fun p => p.1 == key)).map
    (fun p => p.2.value)

/-- `activeFilters['era'] as string[] || []` (and likewise for faction):
name-list extraction of an active external filter.  Values of other shapes
do not carry names (see `FilterVal`). -/
def activeNameList (state : FilterState) (key : String) : List String :=
  match activeValue state key with
  | some (.strs l) => l
  | _ => []

/-- One iteration of the standard (property-based) filter loop of
`applyFilters` for a non-external config: skip if the state entry is absent
or untouched, else dispatch on the filter kind.  Each `match` on the value
realizes the source's shape guard on the untyped `value` (`typeof ... ===
'object'`, `Array.isArray`); a value of a shape not produced for the kind
leaves the guard unsatisfied. -/
def applyConf (env : Env) (state : FilterState) (conf : AdvFilterConfig)
    (results : List Unit) : List Unit :=
  match state.find? (fun p => p.1 == conf.key) with
  | none => results
  | some entry =>
    if !entry.2.interactedWith then results
    else
      let val := entry.2.value
      if conf.type == AdvFilterType.DROPDOWN && conf.multistate then
        match val with
        | .multi selection => filterUnitsByMultiState results conf.key selection
        | _ => results
      else if conf.type == AdvFilterType.DROPDOWN then
        match val with
        | .strs values =>
          if !values.isEmpty then
            results.filter (fun u =>
              match fieldOf u conf.key with
              | .str s => values.contains s
              | _ => false)
          else results
        | _ => results
      else -- RANGE
        match val with
        | .range (lo, hi) =>
          if conf.key == "bv" then
            results.filter (fun u =>
              let adjustedBV := getAdjustedBV env u
              lo ≤ adjustedBV && adjustedBV ≤ hi)
          else
            results.filter (fun u =>
              let unitValue := fieldOf u conf.key
              if (match unitValue with
                  | .num n => conf.ignoreValues.contains n
                  | _ => false) then
                -- If the range starts at 0, ignored sentinel values pass.
                lo == 0
              else
                match unitValue with
                | .num n => lo ≤ n && n ≤ hi
                | _ => false)
        | _ => results

/-- `applyFilters`: the external era/faction id stage followed by the
standard per-field filters in registry order. -/
def applyFilters (env : Env) (units : List Unit) (state : FilterState) : List Unit :=
  let selectedEraNames := activeNameList state "era"
  let selectedFactionNames := activeNameList state "faction"
  let idPair : Option (List Int) × Option (List Int) :=
    if !selectedFactionNames.isEmpty then
      let selectedEraIds :=
        (env.eras.filter (fun e => selectedEraNames.contains e.name)).map (·.id)
      (none,
        getUnitIdsForSelectedFactions env selectedFactionNames
          (if !selectedEraIds.isEmpty then some selectedEraIds else none))
    else if !selectedEraNames.isEmpty then
      (getUnitIdsForSelectedEras env selectedEraNames, none)
    else (none, none)
  let results :=
    match idPair with
    | (some eraIds, some factionIds) =>
      let finalIds := eraIds.filter (fun id => factionIds.contains id)
      units.filter (fun u => finalIds.contains u.id)
    | (some eraIds, none) => units.filter (fun u => eraIds.contains u.id)
    | (none, some factionIds) => units.filter (fun u => factionIds.contains u.id)
    | (none, none) => units
  ADVANCED_FILTERS.foldl
    (fun res conf => if conf.external then res else applyConf env state conf res)
    results

/-! ### Non-overlapping token matching (text search) -/

/-- `tok` occurs in `hay` at index `i` (Boolean form). -/
def occursAtB (hay tok : List Char) (i : Nat) : Bool :=
  i + tok.length ≤ hay.length && (hay.drop i).take tok.length == tok

/-- `hay.indexOf(tok, start)`: the first index `≥ start` at which `tok`
occurs, `none` for `-1`. -/
def indexOfFrom (hay tok : List Char) (start : Nat) : Option Nat :=
  (List.range' start (hay.length + 1 - start)).find? (occursAtB hay tok)

/-- Two spans `[s, e)` overlap: `!(end <= s || idx >= e)` in the source. -/
def spansOverlapB (a b : Nat × Nat) : Bool :=
  !(a.2 ≤ b.1 || a.1 ≥ b.2)

/-- The `while (start <= hay.length - token.length)` search loop of
`tokensMatchNonOverlapping` for one token: find the leftmost occurrence at
or after `start` that does not overlap a claimed span, advancing past each
overlapping occurrence.  `fuel` bounds the iteration count: each iteration
restarts at `idx + 1 > start` and the guard keeps `start ≤ hay.length`, so
`hay.length + 1` iterations always suffice and the loop is faithfully
reproduced with that initial fuel. -/
def findSpan (hay tok : List Char) (taken : List (Nat × Nat)) :
    Nat → Nat → Option (Nat × Nat)
  | 0, _ => none
  | fuel + 1, start =>
    if start + tok.length ≤ hay.length then
      match indexOfFrom hay tok start with
      | none => none
      | some idx =>
        -- end = idx + token.length
        if taken.any (fun p => spansOverlapB (idx, idx + tok.length) p) then
          findSpan hay tok taken fuel (idx + 1)
        else some (idx, idx + tok.length)
    else none

/-- The token loop of `tokensMatchNonOverlapping`: empty tokens are skipped;
each remaining token must be assigned a span, which is then claimed. -/
def tokensGo (hay : List Char) : List (List Char) → List (Nat × Nat) → Bool
  | [], _ => true
  | tok :: rest, taken =>
    if tok.isEmpty then tokensGo hay rest taken
    else
      match findSpan hay tok taken (hay.length + 1) 0 with
      | some span => tokensGo hay rest (taken ++ [span])
      | none => false

/-- `tokensMatchNonOverlapping`. -/
def tokensMatchNonOverlapping (text : String) (tokens : List String) : Bool :=
  tokensGo text.data (tokens.map (·.data)) []

/-- `matchesWords`: empty word list passes, else non-overlapping matching
against the concatenation of the normalized chassis and model fields. -/
def matchesWords (u : Unit) (words : List String) : Bool :=
  if words.isEmpty then true
  else
    let text := (u.chassisNorm.getD "") ++ " " ++ (u.modelNorm.getD "")
    tokensMatchNonOverlapping text words

/-! ### Option availability: the range branch of `advOptions` -/

/-- `getValidFilterValues`: the numeric field values of the units
(`typeof v === 'number'`), minus the ignored sentinel values when the
config declares any. -/
def getValidFilterValues (units : List Unit) (conf : AdvFilterConfig) : List Int :=
  let vals := units.filterMap (fun u =>
    match fieldOf u conf.key with
    | .num n => some n
    | _ => none)
  if !conf.ignoreValues.isEmpty then
    vals.filter (fun v => !(conf.ignoreValues.contains v))
  else vals

/-- The exposed range metadata (the fields of `RangeFilterOptions` the
claims are about). -/
structure RangeAdvResult where
  totalRange : Int × Int
  options : Int × Int
  value : Int × Int
  interacted : Bool
deriving DecidableEq

/-- The `AdvFilterType.RANGE` branch of the `advOptions` computed signal for
one config: the available range is the min/max over the context units'
valid values (`Math.min(...vals)` / `Math.max(...vals)`), falling back to
the cached total range when no values remain; the current value — the
stored selection if touched, else the available range — is clamped into the
available range, swapping the endpoints if the clamp inverts them.
`totalRangeCache` is `this.totalRangesCache[conf.key]` (`(0, 0)` fallback
when absent) and `stateEntry` is `state[conf.key]`. -/
def advOptionsRangeBranch (env : Env) (conf : AdvFilterConfig)
    (contextUnits : List Unit) (totalRangeCache : Option (Int × Int))
    (stateEntry : Option FilterEntry) : RangeAdvResult :=
  let totalRange := totalRangeCache.getD (0, 0)
  let vals : List Int :=
    if conf.key == "bv" then
      (contextUnits.map (getAdjustedBV env)).filter (fun bv => bv > 0)
    else getValidFilterValues contextUnits conf
  let availableRange :=
    match vals with
    | [] => totalRange
    | v :: vs => (vs.foldl min v, vs.foldl max v)
  let interacted :=
    match stateEntry with
    | some e => e.interactedWith
    | none => false
  let currentValue :=
    match stateEntry with
    | some e =>
      if e.interactedWith then
        match e.value with
        | .range r => r
        | _ => availableRange
      else availableRange
    | none => availableRange
  let clampedMin := max availableRange.1 (min currentValue.1 availableRange.2)
  let clampedMax := min availableRange.2 (max currentValue.2 availableRange.1)
  let clamped :=
    if clampedMin > clampedMax then (clampedMax, clampedMin) else (clampedMin, clampedMax)
  { totalRange := totalRange, options := availableRange, value := clamped,
    interacted := interacted }

/-! ### `setFilter` -/

/-- `setFilter`.  `availableRangeOptions` stands for the read of
`this.advOptions()[key]?.options` performed for range filters (the
currently available range computed by the availability engine). -/
def setFilter (availableRangeOptions : String → Option (Int × Int))
    (state : FilterState) (key : String) (value : FilterVal) : FilterState :=
  match ADVANCED_FILTERS.find? (fun f => f.key == key) with
  | none => state
  | some conf =>
    let interacted :=
      if conf.type == AdvFilterType.RANGE then
        -- Untouched when the value equals the full available range.
        match value, availableRangeOptions key with
        | .range v, some availableRange => !(v == availableRange)
        | _, _ => true
      else if conf.multistate then
        -- Untouched when the selection is empty or every state is off.
        match value with
        | .multi selection => !(selection.all (fun p => p.2.state == MState.off))
        | _ => true
      else
        -- Untouched when the selected name list is empty.
        match value with
        | .strs values => !values.isEmpty
        | _ => true
    jsObjSet state key { value := value, interactedWith := interacted }

/-! ### Compact URL codec -/

/-- The encoded form of one multistate selection entry (the body of the
`for (const [name, selectionValue] of Object.entries(selection))` loop in
`generateCompactFiltersParam`): percent-encoded name, then `.` for `and` /
`!` for `not` (no suffix for `or`), then `~<count>` when the count exceeds
one. -/
def encodeMultiPart (name : String) (sel : MSelVal) : String :=
  encodeURIComponent name
    ++ (if sel.state == MState.and then "."
        else if sel.state == MState.not then "!" else "")
    ++ (if sel.count > 1 then "~" ++ toString sel.count else "")

/-- `generateCompactFiltersParam`: touched filters only, in state insertion
order, each as `key:payload`, joined by `|`; `none` models the `null`
returned when no part was produced. -/
def generateCompactFiltersParam (state : FilterState) : Option String :=
  let parts := state.foldl
    (fun acc p =>
      if !p.2.interactedWith then acc
      else
        match ADVANCED_FILTERS.find? (fun f => f.key == p.1) with
        | none => acc
        | some conf =>
          if conf.type == AdvFilterType.RANGE then
            match p.2.value with
            | .range (mn, mx) => acc ++ [p.1 ++ ":" ++ toString mn ++ "-" ++ toString mx]
            | _ => acc
          else if conf.multistate then
            match p.2.value with
            | .multi selection =>
              let subParts := selection.foldl
                (fun sub q =>
                  if !(q.2.state == MState.off) then sub ++ [encodeMultiPart q.1 q.2]
                  else sub)
                []
              if !subParts.isEmpty then
                acc ++ [p.1 ++ ":" ++ String.intercalate "," subParts]
              else acc
            | _ => acc
          else
            match p.2.value with
            | .strs values =>
              if !values.isEmpty then
                acc ++ [p.1 ++ ":" ++ String.intercalate "," (values.map encodeURIComponent)]
              else acc
            | _ => acc)
    []
  if !parts.isEmpty then some (String.intercalate "|" parts) else none

/-- `parseInt(...) || 1` for the `~<count>` suffix: `NaN` and `0` both fall
back to `1`. -/
def parseCountOr1 (cs : List Char) : Int :=
  match jsParseNumber cs with
  | none => 1
  | some 0 => 1
  | some n => n

/-- The item loop of the multistate branch of `parseCompactFiltersFromUrl`:
state suffix (`.`/`!`) first, then the `~<count>` suffix, then percent
decoding of the name; a decode failure (`none`) aborts the whole parse (it
is only caught by the outer try/catch). -/
def parseMultiItems : List (List Char) → MultiStateSelection →
    Option MultiStateSelection
  | [], selection => some selection
  | item :: rest, selection =>
    let (encodedName1, state) :=
      if item.getLast? == some '.' then (item.dropLast, MState.and)
      else if item.getLast? == some '!' then (item.dropLast, MState.not)
      else (item, MState.or)
    let (encodedName2, count) :=
      match charIndexOf encodedName1 '~' with
      | some starIndex =>
        (encodedName1.take starIndex, parseCountOr1 (encodedName1.drop (starIndex + 1)))
      | none => (encodedName1, 1)
    match decodeURIComponentChars encodedName2 with
    | none => none
    | some nameChars =>
      parseMultiItems rest
        (jsObjSet selection (String.mk nameChars) { state := state, count := count })

/-- Percent decoding of the comma-separated values of a plain dropdown
segment; a decode failure aborts the whole parse. -/
def parseDropdownValues : List (List Char) → Option (List String)
  | [] => some []
  | v :: rest =>
    match decodeURIComponentChars v with
    | none => none
    | some cs => (parseDropdownValues rest).map (String.mk cs :: ·)

/-- Result of parsing one `key:payload` segment: `err` models a thrown
`URIError` (caught by the enclosing try/catch), `skip` a segment that
contributes nothing. -/
inductive SegResult where
  | err : SegResult
  | skip : SegResult
  | entry : String → FilterEntry → SegResult

/-- One iteration of the segment loop of `parseCompactFiltersFromUrl`
(`key` stands for the substring before the first `:`, `valueStr` for the
rest). -/
def parseSegment (part : List Char) : SegResult :=
  match charIndexOf part ':' with
  | none => .skip
  | some colonIndex =>
    match ADVANCED_FILTERS.find? (fun f => f.key == String.mk (part.take colonIndex)) with
    | none => .skip
    | some conf =>
      if conf.type == AdvFilterType.RANGE then
        match charIndexOf (part.drop (colonIndex + 1)) '-' with
        | none => .skip
        | some dashIndex =>
          match jsParseNumber ((part.drop (colonIndex + 1)).take dashIndex),
              jsParseNumber ((part.drop (colonIndex + 1)).drop (dashIndex + 1)) with
          | some mn, some mx =>
            .entry (String.mk (part.take colonIndex))
              { value := .range (mn, mx), interactedWith := true }
          | _, _ => .skip
      else if conf.multistate then
        match parseMultiItems (jsSplit ',' (part.drop (colonIndex + 1))) [] with
        | none => .err
        | some selection =>
          if !selection.isEmpty then
            .entry (String.mk (part.take colonIndex))
              { value := .multi selection, interactedWith := true }
          else .skip
      else
        -- `.filter(Boolean)` drops empty strings before decoding.
        match parseDropdownValues
            ((jsSplit ',' (part.drop (colonIndex + 1))).filter (fun v => !v.isEmpty)) with
        | none => .err
        | some values =>
          if !values.isEmpty then
            .entry (String.mk (part.take colonIndex))
              { value := .strs values, interactedWith := true }
          else .skip

/-- The segment loop with the enclosing try/catch: an exception stops the
loop and the state accumulated so far is returned. -/
def parseSegmentsGo : List (List Char) → FilterState → FilterState
  | [], filterState => filterState
  | part :: rest, filterState =>
    match parseSegment part with
    | .err => filterState
    | .skip => parseSegmentsGo rest filterState
    | .entry key e => parseSegmentsGo rest (jsObjSet filterState key e)

/-- `parseCompactFiltersFromUrl`. -/
def parseCompactFiltersFromUrl (filtersParam : String) : FilterState :=
  parseSegmentsGo (jsSplit '|' filtersParam.data) []

/-- `getAvailableDropdownValues`: every value currently present for the
config — era/faction names for the external filters, component names for
the equipment filter, else the non-null, non-empty string field values of
all units. -/
def getAvailableDropdownValues (env : Env) (conf : AdvFilterConfig) : List String :=
  if conf.external then
    if conf.key == "era" then env.eras.map (·.name)
    else if conf.key == "faction" then env.factions.map (·.name)
    else []
  else if conf.key == "componentName" then
    env.units.foldl (fun acc u => acc ++ componentNames u) []
  else
    env.units.foldl
      (fun acc u =>
        match fieldOf u conf.key with
        | .arr l => acc ++ l.filter (fun v => !(v == ""))
        | .str s => if !(s == "") then acc ++ [s] else acc
        | _ => acc)
      []

/-- The validation loop run on the parsed filters during startup URL
restoration (`loadFiltersFromUrlOnStartup`): unknown keys are skipped;
dropdown values are filtered against the currently available values, and a
filter whose every value is unknown is dropped; range filters are kept
as-is. -/
def validateParsedFilters (env : Env) (parsedFilters : FilterState) : FilterState :=
  parsedFilters.foldl
    (fun validFilters p =>
      match ADVANCED_FILTERS.find? (fun f => f.key == p.1) with
      | none => validFilters
      | some conf =>
        if conf.type == AdvFilterType.DROPDOWN then
          let availableValues := getAvailableDropdownValues env conf
          if conf.multistate then
            match p.2.value with
            | .multi selection =>
              let validSelection := selection.filter (fun q => availableValues.contains q.1)
              if !validSelection.isEmpty then
                jsObjSet validFilters p.1
                  { value := .multi validSelection, interactedWith := true }
              else validFilters
            | _ => validFilters
          else
            match p.2.value with
            | .strs values =>
              let validValues := values.filter (fun v => availableValues.contains v)
              if !validValues.isEmpty then
                jsObjSet validFilters p.1
                  { value := .strs validValues, interactedWith := true }
              else validFilters
            | _ => validFilters
        else jsObjSet validFilters p.1 p.2)
    []

/-- The `filters` handling of `loadFiltersFromUrlOnStartup`: percent-decode
the query parameter, parse and validate it; a decode failure is caught and
logged, leaving the initial (empty) filter state in place. -/
def loadFiltersFromUrl (env : Env) (filtersParam : String) : FilterState :=
  match decodeURIComponent filtersParam with
  | none => []
  | some decodedFilters =>
    validateParsedFilters env (parseCompactFiltersFromUrl decodedFilters)

/-! ### Claim-side (specification) definitions

The following definitions restate, in the spec's own words, the membership
sets and value classifications that some claims assert about the code; the
theorems below compare them with the embedded operations. -/

/-- Spec-side: id membership in "the union of the selected eras' id sets
with each era's extinct-for-era ids removed" (era names resolved by first
match, as `getEraByName` does). -/
def specEraMember (env : Env) (eraNames : List String) (id : Int) : Bool :=
  eraNames.any (fun en =>
    match env.eras.find? (fun e => e.name == en) with
    | some era => era.units.contains id && !((extinctIdsForEra env era.id).contains id)
    | none => false)

/-- Spec-side: id membership in "the union of the selected factions'
per-era id sets" restricted by an optional era-id scope (faction names
resolved by first match, as `getFactionByName` does). -/
def specFactionMember (env : Env) (eraIdScope : Option (List Int))
    (factionNames : List String) (id : Int) : Bool :=
  factionNames.any (fun fn =>
    match env.factions.find? (fun f => f.name == fn) with
    | some faction =>
      faction.eras.any (fun p => ctxAllows eraIdScope p.1 && p.2.contains id)
    | none => false)

/-- The era-id scope `applyFilters` passes to the faction lookup: the ids
of the eras whose name is selected, or no restriction when none resolves. -/
def selectedEraIdScope (env : Env) (eraNames : List String) : Option (List Int) :=
  let ids := (env.eras.filter (fun e => eraNames.contains e.name)).map (·.id)
  if !ids.isEmpty then some ids else none

/-- Claim C2 as stated: with both filters touched, a record is kept iff its
id lies in the intersection of the era set (a) and the era-scoped faction
set (b). -/
def c2ClaimIntersectionMember (env : Env) (eraNames factionNames : List String)
    (id : Int) : Bool :=
  specEraMember env eraNames id &&
  specFactionMember env
    (some ((env.eras.filter (fun e => eraNames.contains e.name)).map (·.id)))
    factionNames id

/-- The external-filter state of claim C2: era and faction both touched. -/
def externalState (eraNames factionNames : List String) : FilterState :=
  [("era", { value := .strs eraNames, interactedWith := true }),
   ("faction", { value := .strs factionNames, interactedWith := true })]

/-- Claim C10's classification of an inert value for a filter config: an
empty name list for a plain dropdown, an empty or all-`off` selection for a
multistate dropdown, and an interval equal to the currently available range
for a range filter. -/
def claimInertValue (conf : AdvFilterConfig)
    (availableRangeOptions : String → Option (Int × Int)) (key : String)
    (value : FilterVal) : Bool :=
  if conf.type == AdvFilterType.RANGE then
    match value, availableRangeOptions key with
    | .range v, some availableRange => v == availableRange
    | _, _ => false
  else if conf.multistate then
    match value with
    | .multi selection => selection.all (fun p => p.2.state == MState.off)
    | _ => false
  else
    match value with
    | .strs values => values.isEmpty
    | _ => false

/-- Two half-open spans are disjoint. -/
def spanDisjoint (a b : Nat × Nat) : Prop :=
  a.2 ≤ b.1 ∨ b.2 ≤ a.1

/-- Spec-side malformedness of one compact-codec segment, as enumerated by
claim C4: no `:`, an unknown key, or (for a range filter) an unparsable
range payload. -/
def malformedSegmentB (part : List Char) : Bool :=
  match charIndexOf part ':' with
  | none => true
  | some colonIndex =>
    match ADVANCED_FILTERS.find? (fun f => f.key == String.mk (part.take colonIndex)) with
    | none => true
    | some conf =>
      if conf.type == AdvFilterType.RANGE then
        match charIndexOf (part.drop (colonIndex + 1)) '-' with
        | none => true
        | some dashIndex =>
          match jsParseNumber ((part.drop (colonIndex + 1)).take dashIndex),
              jsParseNumber ((part.drop (colonIndex + 1)).drop (dashIndex + 1)) with
          | some _, some _ => false
          | _, _ => true
      else false

/-- `parts.join('|')` at the character-list level. -/
def jsJoin (sep : Char) : List (List Char) → List Char
  | [] => []
  | [x] => x
  | x :: rest => x ++ sep :: jsJoin sep rest

/-! ### Concrete fixtures used by witnesses and counterexamples -/

/-- An environment with no data and default skills. -/
def env0 : Env :=
  { units := [], eras := [], factions := [], gunnery := 4, piloting := 5,
    bvCalc := fun b _ _ => b }

/-- A record with id 42 and no properties. -/
def u42 : Unit :=
  { id := 42, bv := 0, comp := [], chassisNorm := none, modelNorm := none, fields := [] }

/-- Counterexample environment for claim C2: era `E` (id 1) has an empty
unit id set, faction `F` (id 5) lists unit 42 for era 1. -/
def env2 : Env :=
  { units := [u42],
    eras := [{ id := 1, name := "E", units := [] }],
    factions := [{ id := 5, name := "F", eras := [(1, [42])] }],
    gunnery := 4, piloting := 5, bvCalc := fun b _ _ => b }

/-- A record whose `heat` field holds the ignored sentinel `-1`. -/
def uHeat : Unit :=
  { id := 1, bv := 100, comp := [], chassisNorm := none, modelNorm := none,
    fields := [("heat", .num (-1))] }

/-- A record whose `tons` field is 50. -/
def uTons50 : Unit :=
  { id := 2, bv := 100, comp := [], chassisNorm := none, modelNorm := none,
    fields := [("tons", .num 50)] }

/-- A record whose `tons` field is 500. -/
def uTons500 : Unit :=
  { id := 3, bv := 100, comp := [], chassisNorm := none, modelNorm := none,
    fields := [("tons", .num 500)] }

/-- A record carrying one each of components "A", "B" and "C". -/
def uABC : Unit :=
  { id := 7, bv := 0,
    comp := [{ n := "A", q := 1 }, { n := "B", q := 1 }, { n := "C", q := 1 }],
    chassisNorm := none, modelNorm := none, fields := [] }

/-! ## Theorems -/

/-- C1: Decoding the compact filters string produced by encoding a filter
state does NOT always yield an equivalent filter state.  The encoder writes
a multistate entry as `name`, then the state suffix (`.` for and), then
`~count`; the decoder strips a state suffix only from the very end of the
item, before removing `~count`.  At the touched equipment selection
`{"A": {state: and, count: 2}}` the encoder emits `componentName:A.~2`,
which the decoder reads back as the different selection
`{"A.": {state: or, count: 2}}`. -/
theorem c1_roundTrip_mismatch :
    generateCompactFiltersParam
        [("componentName", { value := .multi [("A", { state := .and, count := 2 })],
                             interactedWith := true })]
      = some "componentName:A.~2" ∧
    parseCompactFiltersFromUrl "componentName:A.~2"
      = [("componentName", { value := .multi [("A.", { state := .or, count := 2 })],
                             interactedWith := true })] ∧
    parseCompactFiltersFromUrl "componentName:A.~2"
      ≠ [("componentName", { value := .multi [("A", { state := .and, count := 2 })],
                             interactedWith := true })] := by
  refine ⟨by decide, by decide, by decide⟩

/-- C5: a multistate selection entry with state `not` whose name the record
possesses (for the given key) excludes the record from the Tri-State Set
Matcher's output, regardless of the other entries. -/
theorem c5_not_excludes (units : List Unit) (key name : String) (cnt : Int)
    (selection : MultiStateSelection) (u : Unit)
    (hmem : (name, ({ state := .not, count := cnt } : MSelVal)) ∈ selection)
    (hpos : unitPossesses u key name = true) :
    u ∉ filterUnitsByMultiState units key selection := by
  intro hin
  have hnot : name ∈ (selection.filter (fun p => p.2.state == MState.not)).map (·.1) :=
    List.mem_map.mpr ⟨(name, { state := .not, count := cnt }),
      List.mem_filter.mpr ⟨hmem, rfl⟩, rfl⟩
  have hne : ((selection.filter (fun p => p.2.state == MState.not)).map (·.1)).isEmpty
      = false :=
    List.isEmpty_eq_false.mpr (List.ne_nil_of_mem hnot)
  unfold filterUnitsByMultiState at hin
  simp only [hne, Bool.and_false, if_false] at hin
  have hpass := (List.mem_filter.mp hin).2
  unfold multiStatePass at hpass
  have hany : ((selection.filter (fun p => p.2.state == MState.not)).map (·.1)).any
      (fun notName => (unitNames key u).contains (JSVal.str notName)) = true :=
    List.any_eq_true.mpr ⟨name, hnot, hpos⟩
  simp only [hany, if_true] at hpass
  exact Bool.false_ne_true hpass

/-- C5 witness: a record carrying component "A" is excluded by a selection
that NOTs "A" even though it satisfies the OR entry "B" and the AND entry
"A". -/
theorem c5_not_excludes_witness :
    uABC ∉ filterUnitsByMultiState [uABC] "componentName"
      [("B", { state := .or, count := 1 }),
       ("C", { state := .and, count := 1 }),
       ("A", { state := .not, count := 1 })] :=
  c5_not_excludes [uABC] "componentName" "A" 1 _ uABC (by decide) (by decide)

/-- On a duplicate-free list, JS `Set` construction is the identity. -/
theorem jsSetOfList_eq_self {l : List String} (h : l.Nodup) : jsSetOfList l = l := by
  have main : ∀ (l' acc : List String), l'.Nodup → (∀ x ∈ l', x ∉ acc) →
      l'.foldl (fun acc x => if acc.contains x then acc else acc ++ [x]) acc = acc ++ l' := by
    intro l'
    induction l' with
    | nil => intro acc _ _; simp
    | cons x xs ih =>
      intro acc hnd hdisj
      have hx : acc.contains x = false := by
        have : x ∉ acc := hdisj x (List.mem_cons_self x xs)
        exact Bool.eq_false_iff.mpr (fun hc => this (List.elem_iff.mp hc))
      rw [List.foldl_cons, hx, if_neg Bool.false_ne_true,
        ih (acc ++ [x]) hnd.of_cons (by
          intro y hy
          simp only [List.mem_append, List.mem_singleton]
          rintro (hacc | rfl)
          · exact hdisj y (List.mem_cons_of_mem x hy) hacc
          · exact (List.nodup_cons.mp hnd).1 hy),
        List.append_assoc, List.singleton_append]
  have hm := main l [] h (by simp)
  unfold jsSetOfList
  rw [hm, List.nil_append]

/-- One `smartSortStep` keeps the multiset `sortedOptions ++ optionsSet`. -/
theorem smartSortStep_perm (acc : List String × List String) (p : String) :
    ((smartSortStep acc p).1 ++ (smartSortStep acc p).2).Perm (acc.1 ++ acc.2) := by
  unfold smartSortStep
  split
  · simp only
    rw [List.append_assoc]
    refine (List.Perm.append_left acc.1 ?_)
    exact ((List.mergeSort_perm _ _).append_right _).trans (List.filter_append_perm _ acc.2)
  · split
    · rename_i hmem
      simp only
      rw [List.append_assoc]
      refine (List.Perm.append_left acc.1 ?_)
      exact (List.singleton_append ▸
        (List.perm_cons_erase (List.elem_iff.mp hmem)).symm)
    · exact List.Perm.refl _

/-- The predefined-order loop keeps the multiset `sortedOptions ++ optionsSet`. -/
theorem smartSortSteps_perm (pre : List String) :
    ∀ acc : List String × List String,
      ((pre.foldl smartSortStep acc).1 ++ (pre.foldl smartSortStep acc).2).Perm
        (acc.1 ++ acc.2) := by
  induction pre with
  | nil => intro acc; exact List.Perm.refl _
  | cons p ps ih =>
    intro acc
    simpa using (ih (smartSortStep acc p)).trans (smartSortStep_perm acc p)

/-- C9: for every duplicate-free option list and every predefined order
(with or without wildcard entries), `smartDropdownSort` returns a
permutation of its input — each option appears exactly once and the length
is preserved. -/
theorem c9_smartSort_perm (options predefinedOrder : List String)
    (h : options.Nodup) :
    (smartDropdownSort options predefinedOrder).Perm options := by
  unfold smartDropdownSort
  split
  · rw [jsSetOfList_eq_self h]
    have hsteps := smartSortSteps_perm predefinedOrder ([], options)
    refine List.Perm.trans ?_ (by simpa using hsteps)
    exact List.Perm.append_left _ (List.mergeSort_perm _ _)
  · exact List.mergeSort_perm _ _

/-- C9 witness: a concrete duplicate-free input with a wildcard predefined
order is permuted. -/
theorem c9_smartSort_perm_witness :
    (smartDropdownSort ["Heavy", "Light", "Ultra Light A", "Assault"]
        ["Ultra Light*", "Light", "Medium", "Heavy", "Assault"]).Perm
      ["Heavy", "Light", "Ultra Light A", "Assault"] :=
  c9_smartSort_perm _ _ (by decide)

/-- A span found by the search loop is an occurrence of the token and is
disjoint from every already-claimed span. -/
theorem findSpan_sound (hay tok : List Char) (taken : List (Nat × Nat)) :
    ∀ (fuel start : Nat) (sp : Nat × Nat),
      findSpan hay tok taken fuel start = some sp →
      occursAtB hay tok sp.1 = true ∧ sp.2 = sp.1 + tok.length ∧
        ∀ p ∈ taken, spanDisjoint sp p := by
  intro fuel
  induction fuel with
  | zero => intro start sp h; exact absurd h (by simp [findSpan])
  | succ fuel ih =>
    intro start sp h
    unfold findSpan at h
    split at h
    · revert h
      split
      · intro h; exact absurd h (by simp)
      · rename_i idx hidx
        split
        · intro h; exact ih (idx + 1) sp h
        · rename_i hnool
          intro h
          have hsp : sp = (idx, idx + tok.length) := by
            simpa using h.symm
          subst hsp
          refine ⟨List.find?_some hidx, rfl, ?_⟩
          intro p hp
          have hfalse : (taken.any fun p => spansOverlapB (idx, idx + tok.length) p) = false := by
            simpa using hnool
          have hov : spansOverlapB (idx, idx + tok.length) p = false :=
            Bool.eq_false_iff.mpr (List.any_eq_false.mp hfalse p hp)
          have hdis : idx + tok.length ≤ p.1 ∨ p.2 ≤ idx := by
            rcases le_or_lt (idx + tok.length) p.1 with hle | hlt
            · exact Or.inl hle
            · refine Or.inr ?_
              have := by simpa [spansOverlapB] using hov
              exact this hlt
          exact hdis
    · exact absurd h (by simp)

/-- If the token loop succeeds, every non-empty token can be assigned an
occurrence, the assigned spans are pairwise disjoint, and each is disjoint
from the initially claimed spans. -/
theorem tokensGo_sound (hay : List Char) :
    ∀ (toks : List (List Char)) (taken : List (Nat × Nat)),
      tokensGo hay toks taken = true →
      ∃ spans : List (Nat × Nat),
        List.Forall₂ (fun tok sp => occursAtB hay tok sp.1 = true ∧ sp.2 = sp.1 + tok.length)
          (toks.filter (fun t => !t.isEmpty)) spans ∧
        spans.Pairwise spanDisjoint ∧
        ∀ sp ∈ spans, ∀ p ∈ taken, spanDisjoint sp p := by
  intro toks
  induction toks with
  | nil => intro taken _; exact ⟨[], by simp, by simp, by simp⟩
  | cons tok rest ih =>
    intro taken h
    unfold tokensGo at h
    split at h
    · rename_i hemp
      obtain ⟨spans, hf, hpw, hdj⟩ := ih taken h
      refine ⟨spans, ?_, hpw, hdj⟩
      simpa [List.filter_cons, hemp] using hf
    · rename_i hemp
      revert h
      split
      · rename_i sp hsp
        intro h
        obtain ⟨spans, hf, hpw, hdj⟩ := ih (taken ++ [sp]) h
        obtain ⟨hocc, hlen, hdis⟩ := findSpan_sound hay tok taken _ _ sp hsp
        refine ⟨sp :: spans, ?_, ?_, ?_⟩
        · rw [List.filter_cons, if_pos (by simpa using hemp)]
          exact List.Forall₂.cons ⟨hocc, hlen⟩ hf
        · refine List.Pairwise.cons ?_ hpw
          intro q hq
          have := hdj q hq sp (by simp)
          unfold spanDisjoint at this ⊢
          exact this.symm
        · intro q hq p hp
          rcases List.mem_cons.mp hq with rfl | hq'
          · exact hdis p hp
          · exact hdj q hq' p (List.mem_append_left _ hp)
      · intro h; exact absurd h Bool.false_ne_true

/-- C6: when the non-overlapping token matcher reports a match, every
non-empty term is assigned an occurrence in the text and the assigned spans
are pairwise disjoint (so a match is reported only if every term gets a
span disjoint from all others); and in particular the text `"as7-d"` with
the longest-first terms `["as7", "7"]` does not match, because the only
`"7"` lies inside the span claimed by `"as7"`. -/
theorem c6_nonOverlapping_sound :
    (∀ (text : String) (tokens : List String),
      tokensMatchNonOverlapping text tokens = true →
      ∃ spans : List (Nat × Nat),
        List.Forall₂
          (fun tok sp => occursAtB text.data tok sp.1 = true ∧ sp.2 = sp.1 + tok.length)
          ((tokens.map String.data).filter (fun t => !t.isEmpty)) spans ∧
        spans.Pairwise spanDisjoint) ∧
    tokensMatchNonOverlapping "as7-d" ["as7", "7"] = false := by
  constructor
  · intro text tokens h
    obtain ⟨spans, hf, hpw, _⟩ := tokensGo_sound text.data (tokens.map String.data) [] h
    exact ⟨spans, hf, hpw⟩
  · decide

/-- C6 witness: the matcher accepts `"ab"` with terms `["a", "b"]`, and the
two terms indeed receive disjoint occurrences. -/
theorem c6_nonOverlapping_sound_witness :
    ∃ spans : List (Nat × Nat),
      List.Forall₂
        (fun tok sp => occursAtB "ab".data tok sp.1 = true ∧ sp.2 = sp.1 + tok.length)
        ((["a", "b"].map String.data).filter (fun t => !t.isEmpty)) spans ∧
      spans.Pairwise spanDisjoint :=
  c6_nonOverlapping_sound.1 "ab" ["a", "b"] (by decide)

/-- C10: `setFilter` on a known key stores the value with
`interactedWith = false` exactly when the value is inert for the filter's
kind (empty list for a plain dropdown, empty or all-`off` selection for a
multistate dropdown, interval equal to the currently available range for a
range filter) and `true` otherwise; an unknown key leaves the state
entirely unchanged. -/
theorem c10_setFilter_touched (availableRangeOptions : String → Option (Int × Int))
    (state : FilterState) (key : String) (value : FilterVal) :
    (ADVANCED_FILTERS.find? (fun f => f.key == key) = none →
      setFilter availableRangeOptions state key value = state) ∧
    (∀ conf, ADVANCED_FILTERS.find? (fun f => f.key == key) = some conf →
      setFilter availableRangeOptions state key value =
        jsObjSet state key
          { value := value,
            interactedWith := !(claimInertValue conf availableRangeOptions key value) }) := by
  constructor
  · intro hnone
    unfold setFilter
    rw [hnone]
  · intro conf hsome
    unfold setFilter claimInertValue
    rw [hsome]
    dsimp only
    refine congrArg (fun b => jsObjSet state key { value := value, interactedWith := b }) ?_
    by_cases htype : conf.type == AdvFilterType.RANGE
    · rw [if_pos htype, if_pos htype]
      cases value with
      | range v =>
        cases availableRangeOptions key with
        | none => rfl
        | some availableRange => simp
      | strs l => cases availableRangeOptions key <;> rfl
      | multi sel => cases availableRangeOptions key <;> rfl
    · rw [if_neg htype, if_neg htype]
      by_cases hms : conf.multistate
      · rw [if_pos hms, if_pos hms]
        cases value <;> simp
      · rw [if_neg hms, if_neg hms]
        cases value <;> simp

/-- C10 witness: an unknown key leaves the state unchanged, and a known
plain dropdown key with an empty selection is stored untouched. -/
theorem c10_setFilter_touched_witness :
    setFilter (fun _ => none) [] "nosuchkey" (.strs []) = [] ∧
    setFilter (fun _ => none) [] "type" (.strs []) =
      [("type", { value := .strs [], interactedWith := false })] := by
  constructor
  · exact (c10_setFilter_touched (fun _ => none) [] "nosuchkey" (.strs [])).1 (by decide)
  · refine ((c10_setFilter_touched (fun _ => none) [] "type" (.strs [])).2
      { key := "type", label := "Type", type := .DROPDOWN } (by decide)).trans (by decide)

/-- `Math.min(...vals)` is at most the fold seed. -/
theorem foldl_min_le_seed (vs : List Int) : ∀ v : Int, vs.foldl min v ≤ v := by
  induction vs with
  | nil => intro v; exact le_refl v
  | cons a vs ih =>
    intro v
    exact le_trans (ih (min v a)) (min_le_left v a)

/-- `Math.max(...vals)` is at least the fold seed. -/
theorem seed_le_foldl_max (vs : List Int) : ∀ v : Int, v ≤ vs.foldl max v := by
  induction vs with
  | nil => intro v; exact le_refl v
  | cons a vs ih =>
    intro v
    exact le_trans (le_max_left v a) (ih (max v a))

/-- C8: the range branch of the option availability engine always exposes a
`value` interval clamped inside the available range — whenever the fallback
total range is ordered, `options.1 ≤ value.1 ≤ value.2 ≤ options.2` holds —
and in particular a stored selection `[10, 1000]` against context units
with values 50 and 500 is exposed as `[50, 500]`. -/
theorem c8_range_clamp :
    (∀ (env : Env) (conf : AdvFilterConfig) (contextUnits : List Unit)
        (totalRangeCache : Option (Int × Int)) (stateEntry : Option FilterEntry),
      (totalRangeCache.getD (0, 0)).1 ≤ (totalRangeCache.getD (0, 0)).2 →
      (advOptionsRangeBranch env conf contextUnits totalRangeCache stateEntry).options.1 ≤
          (advOptionsRangeBranch env conf contextUnits totalRangeCache stateEntry).value.1 ∧
        (advOptionsRangeBranch env conf contextUnits totalRangeCache stateEntry).value.1 ≤
          (advOptionsRangeBranch env conf contextUnits totalRangeCache stateEntry).value.2 ∧
        (advOptionsRangeBranch env conf contextUnits totalRangeCache stateEntry).value.2 ≤
          (advOptionsRangeBranch env conf contextUnits totalRangeCache stateEntry).options.2) ∧
    (advOptionsRangeBranch env0 { key := "tons", label := "Tons", type := .RANGE }
        [uTons50, uTons500] (some (0, 1000))
        (some { value := .range (10, 1000), interactedWith := true })).value = (50, 500) := by
  constructor
  · intro env conf contextUnits totalRangeCache stateEntry htotal
    unfold advOptionsRangeBranch
    set vals : List Int :=
      if conf.key == "bv" then
        (contextUnits.map (getAdjustedBV env)).filter (fun bv => bv > 0)
      else getValidFilterValues contextUnits conf with hvals
    have havail :
        (match vals with
          | [] => totalRangeCache.getD (0, 0)
          | v :: vs => (vs.foldl min v, vs.foldl max v)).1 ≤
        (match vals with
          | [] => totalRangeCache.getD (0, 0)
          | v :: vs => (vs.foldl min v, vs.foldl max v)).2 := by
      cases vals with
      | nil => exact htotal
      | cons v vs =>
        exact le_trans (foldl_min_le_seed vs v) (seed_le_foldl_max vs v)
    dsimp only
    generalize hA : (match vals with
      | [] => totalRangeCache.getD (0, 0)
      | v :: vs => (vs.foldl min v, vs.foldl max v)) = availableRange at *
    generalize (match stateEntry with
      | some e =>
        if e.interactedWith = true then
          match e.value with
          | .range r => r
          | _ => availableRange
        else availableRange
      | none => availableRange) = currentValue
    rcases availableRange with ⟨a1, a2⟩
    rcases currentValue with ⟨c1, c2⟩
    dsimp only at havail ⊢
    by_cases hswap :
        max a1 (min c1 a2) > min a2 (max c2 a1)
    · rw [if_pos hswap]
      refine ⟨?_, ?_, ?_⟩ <;> dsimp only <;>
        simp only [le_max_iff, max_le_iff, le_min_iff, min_le_iff] at * <;> omega
    · rw [if_neg hswap]
      refine ⟨?_, ?_, ?_⟩ <;> dsimp only <;>
        simp only [not_lt, le_max_iff, max_le_iff, le_min_iff, min_le_iff] at * <;> omega
  · decide

/-- C8 witness: the clamp invariant at the concrete `[10, 1000]` selection
over context values 50 and 500. -/
theorem c8_range_clamp_witness :
    (advOptionsRangeBranch env0 { key := "tons", label := "Tons", type := .RANGE }
        [uTons50, uTons500] (some (0, 1000))
        (some { value := .range (10, 1000), interactedWith := true })).options.1 ≤
      (advOptionsRangeBranch env0 { key := "tons", label := "Tons", type := .RANGE }
        [uTons50, uTons500] (some (0, 1000))
        (some { value := .range (10, 1000), interactedWith := true })).value.1 ∧
    (advOptionsRangeBranch env0 { key := "tons", label := "Tons", type := .RANGE }
        [uTons50, uTons500] (some (0, 1000))
        (some { value := .range (10, 1000), interactedWith := true })).value.1 ≤
      (advOptionsRangeBranch env0 { key := "tons", label := "Tons", type := .RANGE }
        [uTons50, uTons500] (some (0, 1000))
        (some { value := .range (10, 1000), interactedWith := true })).value.2 ∧
    (advOptionsRangeBranch env0 { key := "tons", label := "Tons", type := .RANGE }
        [uTons50, uTons500] (some (0, 1000))
        (some { value := .range (10, 1000), interactedWith := true })).value.2 ≤
      (advOptionsRangeBranch env0 { key := "tons", label := "Tons", type := .RANGE }
        [uTons50, uTons500] (some (0, 1000))
        (some { value := .range (10, 1000), interactedWith := true })).options.2 :=
  c8_range_clamp.1 env0 { key := "tons", label := "Tons", type := .RANGE }
    [uTons50, uTons500] (some (0, 1000))
    (some { value := .range (10, 1000), interactedWith := true }) (by decide)

/-- A config whose key is absent from the state is skipped by the
per-field filter loop. -/
theorem applyConf_skip (env : Env) (state : FilterState) (conf : AdvFilterConfig)
    (res : List Unit) (h : state.find? (fun p => p.1 == conf.key) = none) :
    applyConf env state conf res = res := by
  unfold applyConf
  rw [h]

/-- The per-field filter loop over configs none of whose (non-external)
keys occur in the state leaves the result list unchanged. -/
theorem foldl_filters_skip (env : Env) (state : FilterState)
    (confs : List AdvFilterConfig) :
    ∀ res,
      (∀ conf ∈ confs, conf.external = false →
        state.find? (fun p => p.1 == conf.key) = none) →
      confs.foldl (fun r c => if c.external then r else applyConf env state c r) res = res := by
  induction confs with
  | nil => intro res _; rfl
  | cons c cs ih =>
    intro res h
    rw [List.foldl_cons]
    have hstep : (if c.external then res else applyConf env state c res) = res := by
      split
      · rfl
      · rename_i hext
        exact applyConf_skip env state c res
          (h c (List.mem_cons_self c cs) (Bool.eq_false_iff.mpr hext))
    rw [hstep]
    exact ih res (fun conf hconf => h conf (List.mem_cons_of_mem c hconf))

/-- A singleton, touched, non-external state leaves the external id stage
inert: `applyFilters` reduces to the per-field loop over the unchanged unit
list. -/
theorem applyFilters_single_nonext (env : Env) (units : List Unit) (k : String)
    (e : FilterEntry) (hera : (k == "era") = false) (hfac : (k == "faction") = false) :
    applyFilters env units [(k, e)] =
      ADVANCED_FILTERS.foldl
        (fun res conf => if conf.external then res else applyConf env [(k, e)] conf res)
        units := by
  have hA : activeNameList [(k, e)] "era" = [] := by
    unfold activeNameList activeValue
    cases hI : e.interactedWith <;>
      simp [List.filter_cons, hI, List.find?, hera]
  have hB : activeNameList [(k, e)] "faction" = [] := by
    unfold activeNameList activeValue
    cases hI : e.interactedWith <;>
      simp [List.filter_cons, hI, List.find?, hfac]
  unfold applyFilters
  rw [hA, hB]
  simp

/-- C7: for every range filter declaring ignored sentinel values, a record
whose field value is such a sentinel is kept by the touched filter iff the
requested range's lower bound is exactly 0. -/
theorem c7_range_ignored_sentinel (env : Env) (conf : AdvFilterConfig) (v : Int)
    (u : Unit) (lo hi : Int)
    (hconf : conf ∈ ADVANCED_FILTERS) (htype : conf.type = .RANGE)
    (hv : v ∈ conf.ignoreValues) (hfield : fieldOf u conf.key = .num v) :
    applyFilters env [u]
        [(conf.key, { value := .range (lo, hi), interactedWith := true })]
      = if lo == 0 then [u] else [] := by
  have hkeys : (ADVANCED_FILTERS.map (·.key)).Nodup := by decide
  have hfacts : ∀ c ∈ ADVANCED_FILTERS, c.type = .RANGE →
      c.external = false ∧ (c.key == "era") = false ∧ (c.key == "faction") = false := by
    decide
  have hbvfact : ∀ c ∈ ADVANCED_FILTERS, c.ignoreValues ≠ [] → (c.key == "bv") = false := by
    decide
  obtain ⟨hext, hera, hfac⟩ := hfacts conf hconf htype
  have hbv : (conf.key == "bv") = false :=
    hbvfact conf hconf (List.ne_nil_of_mem hv)
  rw [applyFilters_single_nonext env [u] conf.key _ hera hfac]
  obtain ⟨s, t, hl⟩ := List.append_of_mem hconf
  have hkeydisj : ∀ c, c ∈ s ∨ c ∈ t → (conf.key == c.key) = false := by
    intro c hc
    have hnd : ((s ++ conf :: t).map (·.key)).Nodup := by
      rw [← hl]; exact hkeys
    rw [List.map_append, List.map_cons] at hnd
    have hne : conf.key ≠ c.key := by
      rcases hc with hcs | hct
      · obtain ⟨_, _, hdisj⟩ := List.nodup_append.mp hnd
        intro heq
        exact hdisj (List.mem_map_of_mem _ hcs) (heq ▸ List.mem_cons_self _ _)
      · have := (List.nodup_cons.mp ((List.nodup_append.mp hnd).2.1)).1
        intro heq
        exact this (heq ▸ List.mem_map_of_mem _ hct)
    exact beq_eq_false_iff_ne.mpr hne
  have hfindnone : ∀ c, c ∈ s ∨ c ∈ t →
      ([(conf.key, ({ value := .range (lo, hi), interactedWith := true } : FilterEntry))].find?
        (fun p => p.1 == c.key)) = none := by
    intro c hc
    have : (conf.key == c.key) = false := hkeydisj c hc
    simp [List.find?, this]
  rw [hl, List.foldl_append, List.foldl_cons]
  rw [foldl_filters_skip env _ s _ (fun c hc _ => hfindnone c (Or.inl hc))]
  have hstep :
      (if conf.external then [u]
       else applyConf env
         [(conf.key, { value := .range (lo, hi), interactedWith := true })] conf [u])
      = if lo == 0 then [u] else [] := by
    rw [if_neg (by rw [hext]; exact Bool.false_ne_true)]
    unfold applyConf
    rw [List.find?_cons_of_pos _ (by simp)]
    have hguard1 : (conf.type == AdvFilterType.DROPDOWN && conf.multistate) = false := by
      rw [htype]; rfl
    have hguard2 : (conf.type == AdvFilterType.DROPDOWN) = false := by
      rw [htype]; rfl
    rw [hguard1]
    simp only [Bool.false_eq_true, if_false, hguard2, hbv]
    have hcontains : conf.ignoreValues.contains v = true := List.elem_iff.mpr hv
    simp only [List.filter_cons, List.filter_nil, hfield, hcontains]
    cases hlo : (lo == 0) <;> simp
  rw [hstep]
  exact foldl_filters_skip env _ t _ (fun c hc _ => hfindnone c (Or.inr hc))

/-- C7 witness: with `ignoredValues = [-1]` on the heat filter, a record
with heat `-1` is included under requested range `[0, 50]` and excluded
under `[5, 50]`. -/
theorem c7_range_ignored_sentinel_witness :
    applyFilters env0 [uHeat]
        [("heat", { value := .range (0, 50), interactedWith := true })] = [uHeat] ∧
    applyFilters env0 [uHeat]
        [("heat", { value := .range (5, 50), interactedWith := true })] = [] := by
  constructor
  · exact (c7_range_ignored_sentinel env0
      { key := "heat", label := "Total Weapons Heat", type := .RANGE, ignoreValues := [-1] }
      (-1) uHeat 0 50 (by decide) rfl (by decide) (by decide)).trans (by decide)
  · exact (c7_range_ignored_sentinel env0
      { key := "heat", label := "Total Weapons Heat", type := .RANGE, ignoreValues := [-1] }
      (-1) uHeat 5 50 (by decide) rfl (by decide) (by decide)).trans (by decide)

/-- Folding pointwise-equal functions gives equal results. -/
theorem foldl_fun_congr {α β : Type} {f g : β → α → β} (h : ∀ b a, f b a = g b a) :
    ∀ (l : List α) (b : β), l.foldl f b = l.foldl g b := by
  intro l
  induction l with
  | nil => intro b; rfl
  | cons a as ih =>
    intro b
    rw [List.foldl_cons, List.foldl_cons, h b a]
    exact ih _

/-- Replacing every entry of a key by an untouched one and dropping the
key's entries leave the same touched entries. -/
theorem filter_touched_map_replace (state : FilterState) (key : String) (v : FilterVal) :
    (state.map
        (fun p => if p.1 == key then (key, { value := v, interactedWith := false }) else p)).filter
        (fun p => p.2.interactedWith) =
      (state.filter (fun p => !(p.1 == key))).filter (fun p => p.2.interactedWith) := by
  induction state with
  | nil => rfl
  | cons p ps ih =>
    by_cases hpk : (p.1 == key) = true
    · simp only [List.map_cons, if_pos hpk, List.filter_cons, hpk]
      simpa using ih
    · have hpk' : (p.1 == key) = false := Bool.eq_false_iff.mpr hpk
      simp only [List.map_cons, if_neg hpk, List.filter_cons, hpk']
      cases hI : p.2.interactedWith <;> simp only [hI, Bool.not_false, if_true,
        Bool.false_eq_true, if_false, List.filter_cons] <;> rw [ih]

/-- Writing an untouched entry and deleting the key leave the same touched
entries. -/
theorem filter_touched_set_untouched (state : FilterState) (key : String) (v : FilterVal) :
    (jsObjSet state key { value := v, interactedWith := false }).filter
        (fun p => p.2.interactedWith) =
      (jsObjDelete state key).filter (fun p => p.2.interactedWith) := by
  unfold jsObjSet jsObjDelete
  by_cases hany : state.any (fun p => p.1 == key)
  · rw [if_pos hany]
    exact filter_touched_map_replace state key v
  · rw [if_neg hany]
    have hnone : ∀ p ∈ state, (p.1 == key) = false := by
      intro p hp
      have := List.any_eq_false.mp (Bool.eq_false_iff.mpr hany) p hp
      exact Bool.eq_false_iff.mpr this
    have hfix : state.filter (fun p => !(p.1 == key)) = state :=
      List.filter_eq_self.mpr (fun p hp => by rw [hnone p hp]; rfl)
    rw [hfix, List.filter_append]
    simp

/-- Replacing a key's entries does not affect lookups of other keys. -/
theorem find?_map_replace_ne (state : FilterState) (key : String) (e : FilterEntry)
    (other : String) (h : (key == other) = false) :
    (state.map (fun p => if p.1 == key then (key, e) else p)).find?
        (fun p => p.1 == other) =
      state.find? (fun p => p.1 == other) := by
  induction state with
  | nil => rfl
  | cons p ps ih =>
    by_cases hpk : (p.1 == key) = true
    · have hp : p.1 = key := eq_of_beq hpk
      have hpo : (p.1 == other) = false := by rw [hp]; exact h
      rw [List.map_cons, if_pos hpk, List.find?_cons_of_neg _ (by simp [h]),
        List.find?_cons_of_neg _ (by simp [hpo])]
      exact ih
    · rw [List.map_cons, if_neg hpk]
      cases hpo : (p.1 == other)
      · rw [List.find?_cons_of_neg _ (by simp [hpo]), List.find?_cons_of_neg _ (by simp [hpo])]
        exact ih
      · rw [List.find?_cons_of_pos _ (by simp [hpo]), List.find?_cons_of_pos _ (by simp [hpo])]

/-- Replacing the entries of a present key makes its lookup return the
replacement. -/
theorem find?_map_replace_self (state : FilterState) (key : String) (e : FilterEntry)
    (hany : state.any (fun p => p.1 == key) = true) :
    (state.map (fun p => if p.1 == key then (key, e) else p)).find?
        (fun p => p.1 == key) = some (key, e) := by
  induction state with
  | nil => exact absurd hany (by simp)
  | cons p ps ih =>
    by_cases hpk : (p.1 == key) = true
    · rw [List.map_cons, if_pos hpk, List.find?_cons_of_pos _ (by simp)]
    · have hpk' : (p.1 == key) = false := Bool.eq_false_iff.mpr hpk
      have hany' : ps.any (fun p => p.1 == key) = true := by
        rcases List.any_eq_true.mp hany with ⟨q, hq, hqk⟩
        rcases List.mem_cons.mp hq with rfl | hq'
        · exact absurd hqk hpk
        · exact List.any_eq_true.mpr ⟨q, hq', hqk⟩
      rw [List.map_cons, if_neg hpk, List.find?_cons_of_neg _ (by simp [hpk'])]
      exact ih hany'

/-- A lookup for a different key is unaffected by a property write. -/
theorem find?_jsObjSet_ne (state : FilterState) (key : String) (e : FilterEntry)
    (other : String) (h : (key == other) = false) :
    (jsObjSet state key e).find? (fun p => p.1 == other) =
      state.find? (fun p => p.1 == other) := by
  unfold jsObjSet
  by_cases hany : state.any (fun p => p.1 == key)
  · rw [if_pos hany]
    exact find?_map_replace_ne state key e other h
  · rw [if_neg hany, List.find?_append]
    cases hfs : state.find? (fun p => p.1 == other)
    · simp [List.find?, h]
    · rfl

/-- A lookup for a different key is unaffected by a key deletion. -/
theorem find?_jsObjDelete_ne (state : FilterState) (key other : String)
    (h : (key == other) = false) :
    (jsObjDelete state key).find? (fun p => p.1 == other) =
      state.find? (fun p => p.1 == other) := by
  unfold jsObjDelete
  induction state with
  | nil => rfl
  | cons p ps ih =>
    by_cases hpk : (p.1 == key) = true
    · have hp : p.1 = key := eq_of_beq hpk
      have hpo : (p.1 == other) = false := by rw [hp]; exact h
      simp only [List.filter_cons, hpk, Bool.not_true, Bool.false_eq_true, if_false,
        List.find?, hpo]
      exact ih
    · have hpk' : (p.1 == key) = false := Bool.eq_false_iff.mpr hpk
      simp only [List.filter_cons, hpk', Bool.not_false, if_true, List.find?]
      cases hpo : (p.1 == other)
      · exact ih
      · rfl

/-- Looking up the written key returns the written entry. -/
theorem find?_jsObjSet_self (state : FilterState) (key : String) (e : FilterEntry) :
    (jsObjSet state key e).find? (fun p => p.1 == key) = some (key, e) := by
  unfold jsObjSet
  by_cases hany : state.any (fun p => p.1 == key)
  · rw [if_pos hany]
    exact find?_map_replace_self state key e hany
  · rw [if_neg hany, List.find?_append]
    have hfs : state.find? (fun p => p.1 == key) = none := by
      rw [List.find?_eq_none]
      intro p hp
      have := List.any_eq_false.mp (Bool.eq_false_iff.mpr hany) p hp
      simp [this]
    rw [hfs]
    simp [List.find?]

/-- Looking up a deleted key finds nothing. -/
theorem find?_jsObjDelete_self (state : FilterState) (key : String) :
    (jsObjDelete state key).find? (fun p => p.1 == key) = none := by
  rw [List.find?_eq_none]
  intro p hp
  have := (List.mem_filter.mp hp).2
  simp only [Bool.not_eq_true'] at this
  simp [this]

/-- The per-field filter step treats a state with an untouched entry for a
key exactly like the state with the key deleted. -/
theorem applyConf_set_untouched_eq_delete (env : Env) (state : FilterState)
    (key : String) (v : FilterVal) (conf : AdvFilterConfig) (res : List Unit) :
    applyConf env (jsObjSet state key { value := v, interactedWith := false }) conf res =
      applyConf env (jsObjDelete state key) conf res := by
  by_cases hk : (key == conf.key) = true
  · have hkey : key = conf.key := eq_of_beq hk
    subst hkey
    unfold applyConf
    rw [find?_jsObjSet_self, find?_jsObjDelete_self]
    rfl
  · have hk' : (key == conf.key) = false := Bool.eq_false_iff.mpr hk
    unfold applyConf
    rw [find?_jsObjSet_ne state key _ conf.key hk', find?_jsObjDelete_ne state key conf.key hk']

/-- C3: the filtering pipeline treats a filter whose entry is marked
untouched exactly like a filter whose entry is absent from the state — so
applying a filter and then toggling it back to untouched restores the
pre-filter result set exactly. -/
theorem c3_untouched_eq_absent (env : Env) (units : List Unit) (state : FilterState)
    (key : String) (v : FilterVal) :
    applyFilters env units (jsObjSet state key { value := v, interactedWith := false }) =
      applyFilters env units (jsObjDelete state key) := by
  have hAct : ∀ k, activeNameList
      (jsObjSet state key { value := v, interactedWith := false }) k =
      activeNameList (jsObjDelete state key) k := by
    intro k
    unfold activeNameList activeValue
    rw [filter_touched_set_untouched]
  unfold applyFilters
  rw [hAct "era", hAct "faction"]
  exact foldl_fun_congr
    (fun res conf => by
      by_cases hc : conf.external = true
      · rw [if_pos hc, if_pos hc]
      · rw [if_neg hc, if_neg hc, applyConf_set_untouched_eq_delete])
    ADVANCED_FILTERS _

/-- Membership in the inner fold of `getUnitIdsForSelectedEras`: ids of one
era minus its extinct set, on top of the accumulator. -/
theorem mem_eraUnits_foldl (ext : List Int) (l : List Int) :
    ∀ (acc : List Int) (x : Int),
      (x ∈ l.foldl
          (fun acc2 id => if !(ext.contains id) then acc2 ++ [id] else acc2) acc) ↔
        x ∈ acc ∨ (x ∈ l ∧ ext.contains x = false) := by
  induction l with
  | nil => intro acc x; simp
  | cons i l' ih =>
    intro acc x
    rw [List.foldl_cons]
    cases hext : ext.contains i
    · rw [Bool.not_false, if_pos rfl, ih]
      constructor
      · rintro (hmem | ⟨hl, hx⟩)
        · rcases List.mem_append.mp hmem with hacc | hi
          · exact Or.inl hacc
          · have : x = i := List.mem_singleton.mp hi
            exact Or.inr ⟨this ▸ List.mem_cons_self i l', this ▸ hext⟩
        · exact Or.inr ⟨List.mem_cons_of_mem i hl, hx⟩
      · rintro (hacc | ⟨hl, hx⟩)
        · exact Or.inl (List.mem_append_left _ hacc)
        · rcases List.mem_cons.mp hl with rfl | hl'
          · exact Or.inl (List.mem_append_right _ (List.mem_singleton.mpr rfl))
          · exact Or.inr ⟨hl', hx⟩
    · rw [Bool.not_true, if_neg Bool.false_ne_true, ih]
      constructor
      · rintro (hacc | ⟨hl, hx⟩)
        · exact Or.inl hacc
        · exact Or.inr ⟨List.mem_cons_of_mem i hl, hx⟩
      · rintro (hacc | ⟨hl, hx⟩)
        · exact Or.inl hacc
        · rcases List.mem_cons.mp hl with rfl | hl'
          · rw [hext] at hx; exact absurd hx (by simp)
          · exact Or.inr ⟨hl', hx⟩

/-- Membership in the era name fold of `getUnitIdsForSelectedEras` equals
the spec-side era membership on top of the accumulator. -/
theorem mem_eraNames_foldl (env : Env) (names : List String) :
    ∀ (acc : List Int) (x : Int),
      (x ∈ names.foldl
          (fun acc eraName =>
            match env.eras.find? (fun e => e.name == eraName) with
            | some era =>
              era.units.foldl
                (fun acc2 id =>
                  if !((extinctIdsForEra env era.id).contains id) then acc2 ++ [id] else acc2)
                acc
            | none => acc) acc) ↔
        x ∈ acc ∨ specEraMember env names x = true := by
  induction names with
  | nil => intro acc x; simp [specEraMember]
  | cons n ns ih =>
    intro acc x
    rw [List.foldl_cons]
    have hspec : (specEraMember env (n :: ns) x = true) ↔
        ((match env.eras.find? (fun e => e.name == n) with
          | some era =>
            era.units.contains x && !((extinctIdsForEra env era.id).contains x)
          | none => false) = true ∨ specEraMember env ns x = true) := by
      unfold specEraMember
      rw [List.any_cons]
      exact iff_of_eq (Bool.or_eq_true _ _)
    cases hf : env.eras.find? (fun e => e.name == n) with
    | none =>
      rw [ih]
      rw [hspec, hf]
      simp
    | some era =>
      rw [ih, mem_eraUnits_foldl, hspec, hf]
      constructor
      · rintro ((hacc | ⟨hu, hx⟩) | hs)
        · exact Or.inl hacc
        · refine Or.inr (Or.inl ?_)
          rw [Bool.and_eq_true]
          exact ⟨List.elem_iff.mpr hu, by rw [hx]; rfl⟩
        · exact Or.inr (Or.inr hs)
      · rintro (hacc | (hterm | hs))
        · exact Or.inl (Or.inl hacc)
        · rw [Bool.and_eq_true] at hterm
          refine Or.inl (Or.inr ⟨List.elem_iff.mp hterm.1, ?_⟩)
          have := hterm.2
          cases hc : (extinctIdsForEra env era.id).contains x
          · rfl
          · rw [hc] at this; exact absurd this (by simp)
        · exact Or.inr hs

/-- Membership in the id set computed by `getUnitIdsForSelectedEras` is
exactly the spec-side era membership. -/
theorem mem_getUnitIdsForSelectedEras (env : Env) (names : List String)
    (ids : List Int) (x : Int)
    (h : getUnitIdsForSelectedEras env names = some ids) :
    x ∈ ids ↔ specEraMember env names x = true := by
  unfold getUnitIdsForSelectedEras at h
  split at h
  · exact absurd h (by simp)
  · have hids := (Option.some.injEq _ _).mp h
    rw [← hids]
    simpa using mem_eraNames_foldl env names [] x

/-- Membership in the inner fold of `getUnitIdsForSelectedFactions`: the
per-era id sets passing the context restriction, on top of the
accumulator. -/
theorem mem_factionEras_foldl (ctx : Option (List Int))
    (eras : List (Int × List Int)) :
    ∀ (acc : List Int) (x : Int),
      (x ∈ eras.foldl
          (fun acc2 p => if ctxAllows ctx p.1 then acc2 ++ p.2 else acc2) acc) ↔
        x ∈ acc ∨
          (eras.any (fun p => ctxAllows ctx p.1 && p.2.contains x) = true) := by
  induction eras with
  | nil => intro acc x; simp
  | cons p ps ih =>
    intro acc x
    rw [List.foldl_cons, List.any_cons]
    cases hctx : ctxAllows ctx p.1
    · rw [if_neg (by simp [hctx]), ih, iff_of_eq (Bool.or_eq_true _ _)]
      constructor
      · rintro (hacc | hany)
        · exact Or.inl hacc
        · exact Or.inr (Or.inr hany)
      · rintro (hacc | (hterm | hany))
        · exact Or.inl hacc
        · simp only [hctx, Bool.false_and] at hterm
          exact absurd hterm (by simp)
        · exact Or.inr hany
    · rw [if_pos (by simp [hctx]), ih, iff_of_eq (Bool.or_eq_true _ _)]
      constructor
      · rintro (hmem | hany)
        · rcases List.mem_append.mp hmem with hacc | hp
          · exact Or.inl hacc
          · exact Or.inr (Or.inl (by
              simp only [hctx, Bool.true_and]
              exact List.elem_iff.mpr hp))
        · exact Or.inr (Or.inr hany)
      · rintro (hacc | (hterm | hany))
        · exact Or.inl (List.mem_append_left _ hacc)
        · simp only [hctx, Bool.true_and] at hterm
          exact Or.inl (List.mem_append_right _ (List.elem_iff.mp hterm))
        · exact Or.inr hany

/-- Membership in the faction name fold of `getUnitIdsForSelectedFactions`
equals the spec-side faction membership on top of the accumulator. -/
theorem mem_factionNames_foldl (env : Env) (ctx : Option (List Int))
    (names : List String) :
    ∀ (acc : List Int) (x : Int),
      (x ∈ names.foldl
          (fun acc factionName =>
            match env.factions.find? (fun f => f.name == factionName) with
            | some faction =>
              faction.eras.foldl
                (fun acc2 p => if ctxAllows ctx p.1 then acc2 ++ p.2 else acc2)
                acc
            | none => acc) acc) ↔
        x ∈ acc ∨ specFactionMember env ctx names x = true := by
  induction names with
  | nil => intro acc x; simp [specFactionMember]
  | cons n ns ih =>
    intro acc x
    rw [List.foldl_cons]
    have hspec : (specFactionMember env ctx (n :: ns) x = true) ↔
        ((match env.factions.find? (fun f => f.name == n) with
          | some faction =>
            faction.eras.any (fun p => ctxAllows ctx p.1 && p.2.contains x)
          | none => false) = true ∨ specFactionMember env ctx ns x = true) := by
      unfold specFactionMember
      rw [List.any_cons]
      exact iff_of_eq (Bool.or_eq_true _ _)
    cases hf : env.factions.find? (fun f => f.name == n) with
    | none =>
      rw [ih, hspec, hf]
      simp
    | some faction =>
      rw [ih, mem_factionEras_foldl, hspec, hf]
      constructor
      · rintro ((hacc | hany) | hs)
        · exact Or.inl hacc
        · exact Or.inr (Or.inl hany)
        · exact Or.inr (Or.inr hs)
      · rintro (hacc | (hterm | hs))
        · exact Or.inl (Or.inl hacc)
        · exact Or.inl (Or.inr hterm)
        · exact Or.inr hs

/-- Membership in the id set computed by `getUnitIdsForSelectedFactions` is
exactly the spec-side faction membership. -/
theorem mem_getUnitIdsForSelectedFactions (env : Env) (names : List String)
    (ctx : Option (List Int)) (ids : List Int) (x : Int)
    (h : getUnitIdsForSelectedFactions env names ctx = some ids) :
    x ∈ ids ↔ specFactionMember env ctx names x = true := by
  unfold getUnitIdsForSelectedFactions at h
  split at h
  · exact absurd h (by simp)
  · have hids := (Option.some.injEq _ _).mp h
    rw [← hids]
    simpa using mem_factionNames_foldl env ctx names [] x

/-- The per-field filter loop ignores the external era/faction state. -/
theorem foldl_filters_skip_external (env : Env) (eraNames factionNames : List String)
    (res : List Unit) :
    ADVANCED_FILTERS.foldl
        (fun r c =>
          if c.external then r else applyConf env (externalState eraNames factionNames) c r)
        res = res := by
  have hfact : ∀ c ∈ ADVANCED_FILTERS, c.external = false →
      (("era" == c.key) = false ∧ ("faction" == c.key) = false) := by decide
  refine foldl_filters_skip env _ ADVANCED_FILTERS res ?_
  intro conf hconf hext
  obtain ⟨h1, h2⟩ := hfact conf hconf hext
  unfold externalState
  rw [List.find?_cons_of_neg _ (by simp [h1]), List.find?_cons_of_neg _ (by simp [h2])]
  rfl

/-- C2 (amended): with the era and faction filters both touched, the
pipeline keeps exactly the records whose id lies in the union of the
selected factions' per-era id sets restricted to the resolved selected era
ids (unrestricted when no selected era name resolves); the era filter's own
id sets and the extinct-id removal play no part.  With the faction filter
inert and the era filter touched, the era id sets minus the per-era extinct
ids decide membership alone. -/
theorem c2_external_membership (env : Env) (units : List Unit)
    (eraNames factionNames : List String) (u : Unit) :
    (factionNames ≠ [] →
      (u ∈ applyFilters env units (externalState eraNames factionNames) ↔
        u ∈ units ∧
          specFactionMember env (selectedEraIdScope env eraNames) factionNames u.id
            = true)) ∧
    (factionNames = [] → eraNames ≠ [] →
      (u ∈ applyFilters env units (externalState eraNames factionNames) ↔
        u ∈ units ∧ specEraMember env eraNames u.id = true)) := by
  constructor
  · intro hfne
    obtain ⟨f0, fs, rfl⟩ : ∃ f0 fs, factionNames = f0 :: fs := by
      cases factionNames with
      | nil => exact absurd rfl hfne
      | cons a l => exact ⟨a, l, rfl⟩
    have hEra : activeNameList (externalState eraNames (f0 :: fs)) "era" = eraNames := rfl
    have hFac : activeNameList (externalState eraNames (f0 :: fs)) "faction"
        = f0 :: fs := rfl
    have hne : getUnitIdsForSelectedFactions env (f0 :: fs)
        (selectedEraIdScope env eraNames) ≠ none := by
      unfold getUnitIdsForSelectedFactions
      rw [if_neg (by simp)]
      simp
    obtain ⟨ids, hids⟩ := Option.ne_none_iff_exists'.mp hne
    have hmem := mem_getUnitIdsForSelectedFactions env (f0 :: fs) _ ids u.id hids
    unfold applyFilters
    rw [hEra, hFac]
    have hscope :
        (if !(((env.eras.filter (fun e => eraNames.contains e.name)).map
            (fun e => e.id)).isEmpty) then
          some ((env.eras.filter (fun e => eraNames.contains e.name)).map (fun e => e.id))
        else none) = selectedEraIdScope env eraNames := rfl
    simp only [List.isEmpty_cons, Bool.not_false, eq_self_iff_true, if_true, hscope, hids]
    rw [foldl_filters_skip_external, List.mem_filter]
    constructor
    · rintro ⟨h1, h2⟩
      exact ⟨h1, hmem.mp (List.elem_iff.mp h2)⟩
    · rintro ⟨h1, h2⟩
      exact ⟨h1, List.elem_iff.mpr (hmem.mpr h2)⟩
  · intro hfeq hene
    subst hfeq
    obtain ⟨e0, es, rfl⟩ : ∃ e0 es, eraNames = e0 :: es := by
      cases eraNames with
      | nil => exact absurd rfl hene
      | cons a l => exact ⟨a, l, rfl⟩
    have hEra : activeNameList (externalState (e0 :: es) []) "era" = e0 :: es := rfl
    have hFac : activeNameList (externalState (e0 :: es) []) "faction" = [] := rfl
    have hne : getUnitIdsForSelectedEras env (e0 :: es) ≠ none := by
      unfold getUnitIdsForSelectedEras
      rw [if_neg (by simp)]
      simp
    obtain ⟨ids, hids⟩ := Option.ne_none_iff_exists'.mp hne
    have hmem := mem_getUnitIdsForSelectedEras env (e0 :: es) ids u.id hids
    unfold applyFilters
    rw [hEra, hFac]
    simp only [List.isEmpty_nil, Bool.not_true, Bool.false_eq_true, if_false,
      List.isEmpty_cons, Bool.not_false, eq_self_iff_true, if_true, hids]
    rw [foldl_filters_skip_external, List.mem_filter]
    constructor
    · rintro ⟨h1, h2⟩
      exact ⟨h1, hmem.mp (List.elem_iff.mp h2)⟩
    · rintro ⟨h1, h2⟩
      exact ⟨h1, List.elem_iff.mpr (hmem.mpr h2)⟩

/-- C2 counterexample: claim C2 as stated is false.  In `env2`, era `E`
contributes no unit ids, so the claimed intersection is empty at id 42; yet
with era `["E"]` and faction `["F"]` both touched the pipeline keeps the
record with id 42, because the code never consults the era id set (nor the
extinct ids) once the faction filter is touched. -/
theorem c2_external_membership_counterexample :
    applyFilters env2 [u42] (externalState ["E"] ["F"]) = [u42] ∧
    c2ClaimIntersectionMember env2 ["E"] ["F"] 42 = false := by
  refine ⟨by decide, by decide⟩

/-- C2 witness: both branches of the amended theorem at the counterexample
environment. -/
theorem c2_external_membership_witness :
    (u42 ∈ applyFilters env2 [u42] (externalState ["E"] ["F"]) ↔
      u42 ∈ [u42] ∧
        specFactionMember env2 (selectedEraIdScope env2 ["E"]) ["F"] u42.id = true) ∧
    (u42 ∈ applyFilters env2 [u42] (externalState ["E"] []) ↔
      u42 ∈ [u42] ∧ specEraMember env2 ["E"] u42.id = true) :=
  ⟨(c2_external_membership env2 [u42] ["E"] ["F"] u42).1 (by decide),
   (c2_external_membership env2 [u42] ["E"] [] u42).2 rfl (by decide)⟩

/-- The recursion equation of `jsSplit` at a cons cell. -/
theorem jsSplit_cons_eq (sep c : Char) (rest : List Char) :
    jsSplit sep (c :: rest) =
      match jsSplit sep rest with
      | [] => [[]]
      | l :: ls => if c == sep then [] :: l :: ls else (c :: l) :: ls := rfl

/-- `jsSplit` never returns an empty chunk list. -/
theorem jsSplit_ne_nil (sep : Char) : ∀ cs : List Char, jsSplit sep cs ≠ [] := by
  intro cs
  cases cs with
  | nil => simp [jsSplit]
  | cons c rest =>
    rw [jsSplit_cons_eq]
    obtain ⟨l, ls, h⟩ : ∃ l ls, jsSplit sep rest = l :: ls := by
      cases hj : jsSplit sep rest with
      | nil => exact absurd hj (by
          cases rest with
          | nil => simp [jsSplit]
          | cons d ds =>
            rw [jsSplit_cons_eq]
            cases jsSplit sep ds with
            | nil => simp
            | cons a b => cases hd : d == sep <;> simp [hd])
      | cons a b => exact ⟨a, b, rfl⟩
    rw [h]
    cases hc : c == sep <;> simp [hc]

/-- Splitting a separator-free chunk yields just that chunk. -/
theorem jsSplit_no_sep (sep : Char) :
    ∀ cs : List Char, sep ∉ cs → jsSplit sep cs = [cs] := by
  intro cs
  induction cs with
  | nil => intro _; rfl
  | cons c rest ih =>
    intro h
    have hc : (c == sep) = false :=
      beq_eq_false_iff_ne.mpr (fun hceq => h (hceq ▸ List.mem_cons_self c rest))
    rw [jsSplit_cons_eq, ih (fun hm => h (List.mem_cons_of_mem c hm))]
    simp [hc]

/-- Splitting a separator-free chunk followed by a separator peels off that
chunk. -/
theorem jsSplit_cons_sep (sep : Char) :
    ∀ (x t : List Char), sep ∉ x →
      jsSplit sep (x ++ sep :: t) = x :: jsSplit sep t := by
  intro x
  induction x with
  | nil =>
    intro t _
    show jsSplit sep (sep :: t) = [] :: jsSplit sep t
    rw [jsSplit_cons_eq]
    obtain ⟨l, ls, h⟩ : ∃ l ls, jsSplit sep t = l :: ls := by
      cases hj : jsSplit sep t with
      | nil => exact absurd hj (jsSplit_ne_nil sep t)
      | cons a b => exact ⟨a, b, rfl⟩
    rw [h]
    simp
  | cons c x' ih =>
    intro t h
    have hc : (c == sep) = false :=
      beq_eq_false_iff_ne.mpr (fun hceq => h (hceq ▸ List.mem_cons_self c x'))
    have hrec := ih t (fun hm => h (List.mem_cons_of_mem c hm))
    rw [List.cons_append, jsSplit_cons_eq, hrec]
    simp [hc]

/-- Splitting the `|`-join of separator-free chunks restores the chunks. -/
theorem jsSplit_jsJoin (sep : Char) :
    ∀ xss : List (List Char), xss ≠ [] → (∀ x ∈ xss, sep ∉ x) →
      jsSplit sep (jsJoin sep xss) = xss := by
  intro xss
  induction xss with
  | nil => intro h _; exact absurd rfl h
  | cons x rest ih =>
    intro _ hfree
    cases rest with
    | nil =>
      show jsSplit sep (jsJoin sep [x]) = [x]
      unfold jsJoin
      exact jsSplit_no_sep sep x (hfree x (List.mem_cons_self x []))
    | cons y rest' =>
      show jsSplit sep (jsJoin sep (x :: y :: rest')) = x :: y :: rest'
      unfold jsJoin
      rw [jsSplit_cons_sep sep x _ (hfree x (List.mem_cons_self x _))]
      rw [ih (by simp) (fun z hz => hfree z (List.mem_cons_of_mem x hz))]

/-- A segment that is malformed in one of the three enumerated ways is
skipped by the segment parser. -/
theorem parseSegment_skip_of_malformed (part : List Char)
    (h : malformedSegmentB part = true) : parseSegment part = .skip := by
  revert h
  unfold malformedSegmentB parseSegment
  cases charIndexOf part ':' with
  | none => intro _; rfl
  | some colonIndex =>
    dsimp only
    cases ADVANCED_FILTERS.find?
        (fun f => f.key == String.mk (part.take colonIndex)) with
    | none => intro _; rfl
    | some conf =>
      dsimp only
      by_cases htype : (conf.type == AdvFilterType.RANGE) = true
      · rw [if_pos htype, if_pos htype]
        cases charIndexOf (part.drop (colonIndex + 1)) '-' with
        | none => intro _; rfl
        | some dashIndex =>
          dsimp only
          cases jsParseNumber ((part.drop (colonIndex + 1)).take dashIndex) with
          | none =>
            cases jsParseNumber ((part.drop (colonIndex + 1)).drop (dashIndex + 1)) with
            | none => intro _; rfl
            | some mx => intro _; rfl
          | some mn =>
            cases jsParseNumber ((part.drop (colonIndex + 1)).drop (dashIndex + 1)) with
            | none => intro _; rfl
            | some mx => intro hfalse; exact absurd hfalse (by simp)
      · rw [if_neg htype, if_neg htype]
        intro hfalse
        exact absurd hfalse (by simp)

/-- Skipped segments drop out of the segment loop without touching the rest
(an exception in a later segment still aborts both runs at the same
place). -/
theorem parseSegmentsGo_skip_middle (bad : List Char)
    (hbad : parseSegment bad = .skip) :
    ∀ (pre post : List (List Char)) (st : FilterState),
      parseSegmentsGo (pre ++ bad :: post) st = parseSegmentsGo (pre ++ post) st := by
  intro pre
  induction pre with
  | nil =>
    intro post st
    show parseSegmentsGo (bad :: post) st = parseSegmentsGo post st
    rw [parseSegmentsGo, hbad]
  | cons p pre' ih =>
    intro post st
    rw [List.cons_append, List.cons_append]
    unfold parseSegmentsGo
    cases parseSegment p with
    | err => rfl
    | skip => exact ih post st
    | entry k e => exact ih post _

/-- C4: inserting a segment that is malformed in one of the enumerated ways
(no `:`, unknown key, unparsable range payload) anywhere into a compact
filters string changes nothing — every remaining segment is still parsed —
and a top-level percent-decode failure of the `filters` query parameter
leaves the restored filter state empty instead of raising. -/
theorem c4_malformed_segments :
    (∀ (pre post : List (List Char)) (bad : List Char),
      (∀ x ∈ pre ++ post, '|' ∉ x) → '|' ∉ bad → malformedSegmentB bad = true →
      parseCompactFiltersFromUrl (String.mk (jsJoin '|' (pre ++ bad :: post)))
        = parseCompactFiltersFromUrl (String.mk (jsJoin '|' (pre ++ post)))) ∧
    (∀ (env : Env) (filtersParam : String),
      decodeURIComponent filtersParam = none →
      loadFiltersFromUrl env filtersParam = []) := by
  constructor
  · intro pre post bad hfree hbadfree hmal
    have hskip := parseSegment_skip_of_malformed bad hmal
    unfold parseCompactFiltersFromUrl
    have hleft : jsSplit '|' (String.mk (jsJoin '|' (pre ++ bad :: post))).data
        = pre ++ bad :: post := by
      refine jsSplit_jsJoin '|' (pre ++ bad :: post) (by simp) ?_
      intro x hx
      rcases List.mem_append.mp hx with hxp | hxm
      · exact hfree x (List.mem_append_left _ hxp)
      · rcases List.mem_cons.mp hxm with rfl | hxp'
        · exact hbadfree
        · exact hfree x (List.mem_append_right _ hxp')
    rw [hleft]
    by_cases hpp : pre ++ post = []
    · obtain ⟨hpre, hpost⟩ := List.append_eq_nil.mp hpp
      subst hpre
      subst hpost
      show parseSegmentsGo [bad] [] = parseSegmentsGo (jsSplit '|' []) []
      rw [parseSegmentsGo, hskip]
      rfl
    · have hright : jsSplit '|' (String.mk (jsJoin '|' (pre ++ post))).data
          = pre ++ post := jsSplit_jsJoin '|' (pre ++ post) hpp hfree
      rw [hright]
      exact parseSegmentsGo_skip_middle bad hskip pre post []
  · intro env filtersParam h
    unfold loadFiltersFromUrl
    rw [h]

/-- C4 witness: a keyless garbage segment between two well-formed segments
changes nothing, and decoding the lone malformed percent string `"%"`
restores the empty filter state. -/
theorem c4_malformed_segments_witness :
    parseCompactFiltersFromUrl
        (String.mk (jsJoin '|' ["tons:1-5".data, "zzz".data, "type:A".data]))
      = parseCompactFiltersFromUrl (String.mk (jsJoin '|' ["tons:1-5".data, "type:A".data])) ∧
    loadFiltersFromUrl env0 "%" = [] :=
  ⟨c4_malformed_segments.1 ["tons:1-5".data] ["type:A".data] "zzz".data
      (by decide) (by decide) (by decide),
   c4_malformed_segments.2 env0 "%" (by decide)⟩

end Mekbay
